import Mathlib

/-!
# Verification of the jay pointer-cursor subsystem (`src/cursor.rs`)

A shallow embedding of the cursor subsystem: the Xcursor binary decoder
(`parser_cursor_file`), the theme locator (`open_cursor`, `open_cursor_file`,
`find_parent_themes`), search-path resolution (`find_cursor_paths`), template
loading (`ServerCursorTemplate::load`), instantiation, and the animated-cursor
scheduling operations (`tick`, `time_until_tick`).

Modelling conventions:
* Byte strings are `List Nat` with each byte reduced mod 256 at the point it is
  read from a file, mirroring that file contents are `u8`.
* Machine integers are `Nat`/`Int` with wrapping (`% 2^32`) made explicit where
  the source can overflow (release-mode semantics).  `usize`/`isize` are 64-bit.
* `Scale` is modelled from the spec ("display scale factor ... always positive",
  "Effective size: logical size multiplied by the scale factor, rounded to the
  nearest integer") as a positive integer factor, so the source's `f64`
  rounding of `size * scale` is exact; the saturating `as u32` cast of the
  result is modelled with `min _ (2^32 - 1)`.
* Fallible operations return an explicit result type `DOut` with a dedicated
  `panic` outcome, so that reachable panics of the source are visible facts.
* Hash-map/hash-set iteration order is unspecified in the source; the model
  fixes first-occurrence order.  Side-effecting logging is modelled only where
  a claim mentions it (the decoder's `warned` flag).
-/

/-- Bytes of an ASCII string literal, used to spell the source's byte-string
constants. -/
def strB (s : String) : List Nat := s.data.map Char.toNat

/-- Association-list insert with overwrite, the behaviour of
`AHashMap::insert` / `SmallMapMut::insert` as used here. -/
def ainsert {κ α : Type} [DecidableEq κ] (k : κ) (v : α) :
    List (κ × α) → List (κ × α)
  | [] => [(k, v)]
  | (k1, v1) :: rest =>
    if k1 = k then (k, v) :: rest else (k1, v1) :: ainsert k v rest

/-- Association-list lookup (`AHashMap::get`, `SmallMapMut::get`). -/
def alookup {κ α : Type} [DecidableEq κ] (k : κ) :
    List (κ × α) → Option α
  | [] => none
  | (k1, v1) :: rest => if k1 = k then some v1 else alookup k rest

/-- Deduplication keeping the first occurrence, modelling the collection of a
hash set into an iteration sequence. -/
def dedupFirst : List Nat → List Nat → List Nat
  | _, [] => []
  | seen, x :: xs =>
    if x ∈ seen then dedupFirst seen xs else x :: dedupFirst (x :: seen) xs

theorem mem_dedupFirst {x : Nat} :
    ∀ {seen l : List Nat}, x ∈ dedupFirst seen l ↔ (x ∈ l ∧ x ∉ seen) := by
  intro seen l
  induction l generalizing seen with
  | nil => simp [dedupFirst]
  | cons a as ih =>
    by_cases ha : a ∈ seen
    · simp only [dedupFirst, if_pos ha, ih, List.mem_cons]
      constructor
      · rintro ⟨h1, h2⟩; exact ⟨Or.inr h1, h2⟩
      · rintro ⟨h1 | h1, h2⟩
        · exact absurd (h1 ▸ ha) h2
        · exact ⟨h1, h2⟩
    · simp only [dedupFirst, if_neg ha, List.mem_cons, ih]
      constructor
      · rintro (rfl | ⟨h1, h2⟩)
        · exact ⟨Or.inl rfl, ha⟩
        · exact ⟨Or.inr h1, fun hx => h2 (Or.inr hx)⟩
      · rintro ⟨rfl | h1, h2⟩
        · exact Or.inl rfl
        · by_cases hax : x = a
          · exact Or.inl hax
          · refine Or.inr ⟨h1, fun hx => ?_⟩
            rcases hx with h | h
            · exact hax h
            · exact h2 h

/-- The error type of the subsystem (`CursorError`); the payloads of `Io` and
`ImportError` are elided. -/
inductive CursorError where
  | IoError
  | NotAnXcursorFile
  | OversizedXcursorFile
  | EmptyXcursorFile
  | CorruptXcursorFile
  | NotFound
  | ImportError
deriving DecidableEq, Repr

/-- Outcome of a fallible source operation: success, a `CursorError`, or a
panic of the Rust code. -/
inductive DOut (α : Type) where
  | ok : α → DOut α
  | err : CursorError → DOut α
  | panic : DOut α
deriving DecidableEq, Repr

def XCURSOR_MAGIC : Nat := 0x72756358
def XCURSOR_IMAGE_TYPE : Nat := 0xfffd0002
def HEADER_SIZE : Nat := 16

/-! ## Byte reader (`BufReader<File>` with `read_u32_into::<LittleEndian>`,
`read_exact` and `seek`) -/

structure Rd where
  data : List Nat
  pos : Nat
deriving DecidableEq, Repr

/-- One byte of the stream, reduced mod 256 (file bytes are `u8`). -/
def byteAt (data : List Nat) (i : Nat) : Option Nat :=
  (data.get? i).map (· % 256)

/-- A little-endian `u32` at offset `i`. -/
def readU32At (data : List Nat) (i : Nat) : Option Nat :=
  match byteAt data i, byteAt data (i+1), byteAt data (i+2), byteAt data (i+3) with
  | some a, some b, some c, some d => some (a + 256*b + 65536*c + 16777216*d)
  | _, _, _, _ => none

def Rd.readU32 (r : Rd) : Option (Nat × Rd) :=
  match readU32At r.data r.pos with
  | some v => some (v, { r with pos := r.pos + 4 })
  | none => none

def Rd.readU322 (r : Rd) : Option (Nat × Nat × Rd) :=
  match r.readU32 with
  | none => none
  | some (a, r) =>
    match r.readU32 with
    | none => none
    | some (b, r) => some (a, b, r)

def Rd.readU323 (r : Rd) : Option (Nat × Nat × Nat × Rd) :=
  match r.readU322 with
  | none => none
  | some (a, b, r) =>
    match r.readU32 with
    | none => none
    | some (c, r) => some (a, b, c, r)

/-- Nine consecutive `u32`s (the image-chunk header read). -/
def Rd.readU329 (r : Rd) :
    Option (Nat × Nat × Nat × Nat × Nat × Nat × Nat × Nat × Nat × Rd) :=
  match r.readU323 with
  | none => none
  | some (a, b, c, r) =>
    match r.readU323 with
    | none => none
    | some (d, e, f, r) =>
      match r.readU323 with
      | none => none
      | some (g, h, i, r) => some (a, b, c, d, e, f, g, h, i, r)

/-- The `read_exact` read of `n` bytes. -/
def Rd.readBytes (r : Rd) (n : Nat) : Option (List Nat × Rd) :=
  if r.pos + n ≤ r.data.length then
    some (((r.data.drop r.pos).take n).map (· % 256), { r with pos := r.pos + n })
  else none

/-! ## The Xcursor decoder (`parser_cursor_file`) -/

/-- A decoded image (`XCursorImage`); dimensions are `i32` in the source. -/
structure XCursorImage where
  width : Int
  height : Int
  xhot : Int
  yhot : Int
  delay : Nat
  pixels : List Nat
deriving DecidableEq, Repr

/-- One per-frame map from (scale, size) to decoded image. -/
abbrev Frame := List ((Nat × Nat) × XCursorImage)

/-- Decoder result (`OpenCursorResult`), plus whether the frame-count
mismatch warning was logged. -/
structure OpenCursorResult where
  images : List Frame
  warned : Bool
deriving DecidableEq, Repr

/-- The per-target best-fit scan state (local `struct Target`). -/
structure Target where
  positions : List Nat
  effective_size : Nat
  size : Nat
  scale : Nat
  best_fit : Int
  best_fit_size : Nat
deriving DecidableEq, Repr

/-- The value `i64::MAX`, the initial best-fit distance. -/
def INIT_FIT : Int := 2^63 - 1

/-- The targets built from the cross product `scales × sizes`; the saturating
`as u32` cast of the rounded effective size is `min _ (2^32 - 1)`. -/
def mkTargets (scales sizes : List Nat) : List Target :=
  scales.foldr (fun sc acc =>
    (sizes.map (fun sz =>
      { positions := []
        effective_size := min (sz * sc) (2^32 - 1)
        size := sz
        scale := sc
        best_fit := INIT_FIT
        best_fit_size := 0 : Target })) ++ acc) []

/-- The body of the TOC scan for one image-type entry and one target
(lines 723-733 of `cursor.rs`). -/
def updateTarget (size pos : Nat) (t : Target) : Target :=
  let fit : Int := (((size : Int) - (t.effective_size : Int)).natAbs : Int)
  let t1 :=
    if fit < t.best_fit then
      { t with best_fit := fit, best_fit_size := size, positions := [] }
    else t
  if size = t1.best_fit_size then
    { t1 with positions := t1.positions ++ [pos] }
  else t1

/-- The TOC scan loop: read `n` entries, update every target on each
image-type entry, skip other entry types.  `none` models an I/O error. -/
def scanToc (r : Rd) (ts : List Target) : Nat → Option (List Target × Rd)
  | 0 => some (ts, r)
  | n+1 =>
    match r.readU323 with
    | none => none
    | some (ty, sz, pos, r1) =>
      if ty = XCURSOR_IMAGE_TYPE then
        scanToc r1 (ts.map (updateTarget sz pos)) n
      else scanToc r1 ts n

/-- Reading one image chunk at absolute position `p`: seek, read nine `u32`
header words, range-check the dimensions (`u32 -> i32`), reserve the pixel
buffer (which panics when the byte count exceeds `isize::MAX`), read the
pixels. -/
def readImage (data : List Nat) (p : Nat) : DOut XCursorImage :=
  let r : Rd := ⟨data, p⟩
  match r.readU329 with
  | none => .err .IoError
  | some (_chunkHeader, _ty, _sz, _ver, w, h, xh, yh, delay, r1) =>
    if w < 2^31 ∧ h < 2^31 ∧ xh < 2^31 ∧ yh < 2^31 then
      let numBytes := w * h * 4
      if 2^63 - 1 < numBytes then .panic
      else
        match r1.readBytes numBytes with
        | none => .err .IoError
        | some (px, _) =>
          .ok { width := (w : Int), height := (h : Int), xhot := (xh : Int)
                yhot := (yh : Int), delay := delay, pixels := px }
    else .err .CorruptXcursorFile

/-- Reading every deduplicated candidate position into the position-keyed
image map. -/
def readImages (data : List Nat) : List Nat → DOut (List (Nat × XCursorImage))
  | [] => .ok []
  | p :: ps =>
    match readImage data p with
    | .ok img =>
      match readImages data ps with
      | .ok m => .ok ((p, img) :: m)
      | .err e => .err e
      | .panic => .panic
    | .err e => .err e
    | .panic => .panic

/-- Building one frame: for each target, its `i`-th candidate position is
looked up in the image map (`targets[t].positions[i]` and `.unwrap()` both
panic when absent). -/
def buildFrame (images : List (Nat × XCursorImage)) (i : Nat) :
    List Target → Frame → DOut Frame
  | [], acc => .ok acc
  | t :: ts, acc =>
    match t.positions.get? i with
    | none => .panic
    | some p =>
      match alookup p images with
      | none => .panic
      | some img => buildFrame images i ts (ainsert (t.scale, t.size) img acc)

def buildFrames (images : List (Nat × XCursorImage)) (ts : List Target) :
    List Nat → DOut (List Frame)
  | [] => .ok []
  | i :: is =>
    match buildFrame images i ts [] with
    | .ok f =>
      match buildFrames images ts is with
      | .ok fs => .ok (f :: fs)
      | .err e => .err e
      | .panic => .panic
    | .err e => .err e
    | .panic => .panic

/-- All candidate positions of all targets, in first-occurrence order
(the union hash set of line 735). -/
def allPositions (ts : List Target) : List Nat :=
  dedupFirst [] (ts.foldr (fun t acc => t.positions ++ acc) [])

/-- The header-skip seek: `(HEADER_SIZE - header) as i64` on `u32` wraps in
release mode; the resulting non-negative offset is added to the position. -/
def tocReader (r : Rd) (header : Nat) : Rd :=
  { r with pos := r.pos + (2^32 + HEADER_SIZE - header) % 2^32 }

/-- The frame-count degrade decision (lines 767-771): the animation length is
the first target's candidate count, collapsed to 1 with a warning when the
counts disagree. -/
def frameCount (ts : List Target) (num0 : Nat) : Bool × Nat :=
  let warned :=
    decide (1 < num0) && ts.any (fun t => decide (t.positions.length ≠ num0))
  (warned, if warned then 1 else num0)

/-- The decoder stage after the TOC scan: collect the deduplicated candidate
positions, read the referenced image chunks, and assemble the frames. -/
def parseAfterScan (data : List Nat) (ts : List Target) :
    DOut OpenCursorResult :=
  let pos := allPositions ts
  if pos = [] then .err .EmptyXcursorFile
  else
    match readImages data pos with
    | .err e => .err e
    | .panic => .panic
    | .ok images =>
      match ts with
      | [] => .panic
      | t0 :: _ =>
        let wn := frameCount ts t0.positions.length
        match buildFrames images ts (List.range wn.2) with
        | .ok frames => .ok ⟨frames, wn.1⟩
        | .err e => .err e
        | .panic => .panic

/-- The Xcursor decoder (`parser_cursor_file`). -/
def parser_cursor_file (data : List Nat) (scales sizes : List Nat) :
    DOut OpenCursorResult :=
  let r : Rd := ⟨data, 0⟩
  match r.readU322 with
  | none => .err .IoError
  | some (magic, header, r1) =>
    if magic ≠ XCURSOR_MAGIC ∨ header < HEADER_SIZE then .err .NotAnXcursorFile
    else
      match r1.readU322 with
      | none => .err .IoError
      | some (_version, ntoc, r2) =>
        let r3 := tocReader r2 header
        if 0x10000 < ntoc then .err .OversizedXcursorFile
        else
          match scanToc r3 (mkTargets scales sizes) ntoc with
          | none => .err .IoError
          | some (ts, _) => parseAfterScan data ts

/-! ## Decoder lemmas -/

theorem alookup_ainsert {κ α : Type} [DecidableEq κ] (k k1 : κ) (v : α)
    (m : List (κ × α)) :
    alookup k (ainsert k1 v m) = if k1 = k then some v else alookup k m := by
  induction m with
  | nil => by_cases h : k1 = k <;> simp [ainsert, alookup, h]
  | cons hd tl ih =>
    obtain ⟨k2, v2⟩ := hd
    by_cases h2 : k2 = k1
    · subst h2
      by_cases h3 : k2 = k <;> simp [ainsert, alookup, h3]
    · by_cases h3 : k2 = k
      · subst h3
        have h4 : ¬ k1 = k2 := fun h => h2 h.symm
        simp [ainsert, alookup, h2, h4]
      · simp [ainsert, alookup, h2, h3, ih]

theorem mem_keys_ainsert {κ α : Type} [DecidableEq κ] (k k1 : κ) (v : α)
    (m : List (κ × α)) :
    k ∈ (ainsert k1 v m).map Prod.fst ↔ k = k1 ∨ k ∈ m.map Prod.fst := by
  induction m with
  | nil => simp [ainsert]
  | cons hd tl ih =>
    obtain ⟨k2, v2⟩ := hd
    by_cases h2 : k2 = k1
    · subst h2; simp [ainsert]
    · simp only [ainsert, if_neg h2, List.map_cons, List.mem_cons, ih]
      tauto

theorem ainsert_keys_nodup {κ α : Type} [DecidableEq κ] (k1 : κ) (v : α)
    (m : List (κ × α)) (h : (m.map Prod.fst).Nodup) :
    ((ainsert k1 v m).map Prod.fst).Nodup := by
  induction m with
  | nil => simp [ainsert]
  | cons hd tl ih =>
    obtain ⟨k2, v2⟩ := hd
    simp only [List.map_cons, List.nodup_cons] at h
    by_cases h2 : k2 = k1
    · subst h2
      simpa [ainsert] using h
    · simp only [ainsert, if_neg h2, List.map_cons, List.nodup_cons]
      refine ⟨fun hmem => ?_, ih h.2⟩
      rcases (mem_keys_ainsert k2 k1 v tl).mp hmem with h3 | h3
      · exact h2 h3
      · exact h.1 h3

theorem byteAt_lt {data : List Nat} {i b : Nat} (h : byteAt data i = some b) :
    b < 256 := by
  unfold byteAt at h
  cases hg : data.get? i with
  | none => rw [hg] at h; simp at h
  | some x =>
    rw [hg] at h
    simp only [Option.map_some'] at h
    cases h
    exact Nat.mod_lt _ (by norm_num)

theorem readU32At_lt {data : List Nat} {i v : Nat}
    (h : readU32At data i = some v) : v < 2^32 := by
  unfold readU32At at h
  cases h0 : byteAt data i with
  | none => rw [h0] at h; simp at h
  | some a =>
    cases h1 : byteAt data (i+1) with
    | none => rw [h0, h1] at h; simp at h
    | some b =>
      cases h2 : byteAt data (i+2) with
      | none => rw [h0, h1, h2] at h; simp at h
      | some c =>
        cases h3 : byteAt data (i+3) with
        | none => rw [h0, h1, h2, h3] at h; simp at h
        | some d =>
          rw [h0, h1, h2, h3] at h
          simp only [Option.some.injEq] at h
          have ha := byteAt_lt h0
          have hb := byteAt_lt h1
          have hc := byteAt_lt h2
          have hd := byteAt_lt h3
          omega

theorem Rd.readU32_lt {r : Rd} {v : Nat} {r1 : Rd}
    (h : r.readU32 = some (v, r1)) : v < 2^32 := by
  unfold Rd.readU32 at h
  cases hg : readU32At r.data r.pos with
  | none => rw [hg] at h; simp at h
  | some w =>
    rw [hg] at h
    simp only [Option.some.injEq, Prod.mk.injEq] at h
    exact h.1 ▸ readU32At_lt hg

theorem Rd.readU322_lt {r : Rd} {a b : Nat} {r1 : Rd}
    (h : r.readU322 = some (a, b, r1)) : a < 2^32 ∧ b < 2^32 := by
  unfold Rd.readU322 at h
  cases h0 : r.readU32 with
  | none => simp only [h0] at h; exact absurd h (by simp)
  | some p0 =>
    obtain ⟨a0, ra⟩ := p0
    simp only [h0] at h
    cases h1 : ra.readU32 with
    | none => simp only [h1] at h; exact absurd h (by simp)
    | some p1 =>
      obtain ⟨b0, rb⟩ := p1
      simp only [h1, Option.some.injEq, Prod.mk.injEq] at h
      obtain ⟨rfl, rfl, -⟩ := h
      exact ⟨Rd.readU32_lt h0, Rd.readU32_lt h1⟩

theorem Rd.readU323_lt {r : Rd} {a b c : Nat} {r1 : Rd}
    (h : r.readU323 = some (a, b, c, r1)) : a < 2^32 ∧ b < 2^32 ∧ c < 2^32 := by
  unfold Rd.readU323 at h
  cases h0 : r.readU322 with
  | none => simp only [h0] at h; exact absurd h (by simp)
  | some p0 =>
    obtain ⟨a0, b0, ra⟩ := p0
    simp only [h0] at h
    cases h1 : ra.readU32 with
    | none => simp only [h1] at h; exact absurd h (by simp)
    | some p1 =>
      obtain ⟨c0, rb⟩ := p1
      simp only [h1, Option.some.injEq, Prod.mk.injEq] at h
      obtain ⟨rfl, rfl, rfl, -⟩ := h
      obtain ⟨ha, hb⟩ := Rd.readU322_lt h0
      exact ⟨ha, hb, Rd.readU32_lt h1⟩

/-- A target in its just-built state. -/
def FreshT (t : Target) : Prop :=
  t.best_fit = INIT_FIT ∧ t.positions = [] ∧ t.effective_size < 2^32

/-- The scan invariant: either no image-type TOC entry was seen yet (all
targets fresh), or every target has accumulated at least one position. -/
def GoodT (ts : List Target) : Prop :=
  (∀ t ∈ ts, FreshT t) ∨ (∀ t ∈ ts, t.positions ≠ [])

theorem mem_mkTargets {scales sizes : List Nat} {t : Target} :
    t ∈ mkTargets scales sizes ↔
      ∃ sc ∈ scales, ∃ sz ∈ sizes,
        t = { positions := []
              effective_size := min (sz * sc) (2^32 - 1)
              size := sz
              scale := sc
              best_fit := INIT_FIT
              best_fit_size := 0 : Target } := by
  induction scales with
  | nil => simp [mkTargets]
  | cons sc rest ih =>
    have hcons : mkTargets (sc :: rest) sizes =
        (sizes.map (fun sz =>
          { positions := []
            effective_size := min (sz * sc) (2^32 - 1)
            size := sz
            scale := sc
            best_fit := INIT_FIT
            best_fit_size := 0 : Target })) ++ mkTargets rest sizes := rfl
    rw [hcons]
    simp only [List.mem_append, List.mem_map, ih, List.mem_cons]
    constructor
    · rintro (⟨sz, hsz, h⟩ | ⟨sc1, h1, sz, h2, rfl⟩)
      · exact ⟨sc, Or.inl rfl, sz, hsz, h.symm⟩
      · exact ⟨sc1, Or.inr h1, sz, h2, rfl⟩
    · rintro ⟨sc1, hsc1, sz, h2, rfl⟩
      rcases hsc1 with rfl | h1
      · exact Or.inl ⟨sz, h2, rfl⟩
      · exact Or.inr ⟨sc1, h1, sz, h2, rfl⟩

theorem mkTargets_fresh {scales sizes : List Nat} :
    ∀ t ∈ mkTargets scales sizes, FreshT t := by
  intro t ht
  obtain ⟨sc, -, sz, -, rfl⟩ := mem_mkTargets.mp ht
  refine ⟨rfl, rfl, ?_⟩
  show min (sz * sc) (2 ^ 32 - 1) < 2 ^ 32
  exact lt_of_le_of_lt (min_le_right _ _) (by norm_num)

theorem updateTarget_fields (size pos : Nat) (t : Target) :
    (updateTarget size pos t).scale = t.scale ∧
    (updateTarget size pos t).size = t.size ∧
    (updateTarget size pos t).effective_size = t.effective_size := by
  simp only [updateTarget]
  split_ifs <;> simp

theorem updateTarget_pos_ne {t : Target} (size pos : Nat)
    (h : t.positions ≠ []) : (updateTarget size pos t).positions ≠ [] := by
  simp only [updateTarget]
  by_cases h1 : (((size : Int) - (t.effective_size : Int)).natAbs : Int) < t.best_fit
  · rw [if_pos h1]
    simp
  · rw [if_neg h1]
    by_cases h2 : size = t.best_fit_size
    · rw [if_pos h2]
      simp [h]
    · rw [if_neg h2]
      exact h

theorem updateTarget_fresh_ne {t : Target} {size : Nat} (pos : Nat)
    (hb : t.best_fit = INIT_FIT) (hs : size < 2^32)
    (he : t.effective_size < 2^32) :
    (updateTarget size pos t).positions ≠ [] := by
  have hfit : (((size : Int) - (t.effective_size : Int)).natAbs : Int) < t.best_fit := by
    rw [hb]
    unfold INIT_FIT
    have : ((size : Int) - (t.effective_size : Int)).natAbs < 2^32 := by
      omega
    omega
  simp only [updateTarget]
  rw [if_pos hfit]
  simp

theorem scanToc_fields {r : Rd} {ts : List Target} {n : Nat} {ts1 : List Target}
    {r1 : Rd} (h : scanToc r ts n = some (ts1, r1)) :
    ts1.map (fun t => (t.scale, t.size, t.effective_size)) =
      ts.map (fun t => (t.scale, t.size, t.effective_size)) := by
  induction n generalizing r ts with
  | zero =>
    unfold scanToc at h
    simp only [Option.some.injEq, Prod.mk.injEq] at h
    rw [h.1]
  | succ n ih =>
    unfold scanToc at h
    cases h0 : r.readU323 with
    | none => simp only [h0] at h; exact absurd h (by simp)
    | some p =>
      obtain ⟨ty, sz, pos, ra⟩ := p
      simp only [h0] at h
      by_cases hty : ty = XCURSOR_IMAGE_TYPE
      · rw [if_pos hty] at h
        rw [ih h, List.map_map]
        exact List.map_congr_left fun t _ => by
          obtain ⟨h1, h2, h3⟩ := updateTarget_fields sz pos t
          simp [Function.comp, h1, h2, h3]
      · rw [if_neg hty] at h
        exact ih h

theorem scanToc_good {r : Rd} {ts : List Target} {n : Nat} {ts1 : List Target}
    {r1 : Rd} (hg : GoodT ts) (h : scanToc r ts n = some (ts1, r1)) :
    GoodT ts1 := by
  induction n generalizing r ts with
  | zero =>
    unfold scanToc at h
    simp only [Option.some.injEq, Prod.mk.injEq] at h
    rw [← h.1]; exact hg
  | succ n ih =>
    unfold scanToc at h
    cases h0 : r.readU323 with
    | none => simp only [h0] at h; exact absurd h (by simp)
    | some p =>
      obtain ⟨ty, sz, pos, ra⟩ := p
      simp only [h0] at h
      by_cases hty : ty = XCURSOR_IMAGE_TYPE
      · rw [if_pos hty] at h
        refine ih ?_ h
        have hsz : sz < 2^32 := (Rd.readU323_lt h0).2.1
        right
        intro t2 ht2
        obtain ⟨t, ht, rfl⟩ := List.mem_map.mp ht2
        rcases hg with hfresh | hne
        · obtain ⟨hb, -, he⟩ := hfresh t ht
          exact updateTarget_fresh_ne pos hb hsz he
        · exact updateTarget_pos_ne _ _ (hne t ht)
      · rw [if_neg hty] at h
        exact ih hg h

theorem listNeNil {α : Type} {l : List α} : l ≠ [] ↔ ∃ x, x ∈ l := by
  cases l <;> simp

theorem mem_positions_foldr {ts : List Target} {p : Nat} :
    p ∈ ts.foldr (fun t acc => t.positions ++ acc) [] ↔
      ∃ t ∈ ts, p ∈ t.positions := by
  induction ts with
  | nil => simp
  | cons t rest ih => simp [List.mem_append, ih]

theorem mem_allPositions {ts : List Target} {p : Nat} :
    p ∈ allPositions ts ↔ ∃ t ∈ ts, p ∈ t.positions := by
  unfold allPositions
  rw [mem_dedupFirst]
  simp [mem_positions_foldr]

theorem allPositions_ne_nil {ts : List Target} :
    allPositions ts ≠ [] ↔ ∃ t ∈ ts, t.positions ≠ [] := by
  rw [listNeNil]
  constructor
  · rintro ⟨p, hp⟩
    obtain ⟨t, ht, hpt⟩ := mem_allPositions.mp hp
    exact ⟨t, ht, listNeNil.mpr ⟨p, hpt⟩⟩
  · rintro ⟨t, ht, htne⟩
    obtain ⟨p, hp⟩ := listNeNil.mp htne
    exact ⟨p, mem_allPositions.mpr ⟨t, ht, hp⟩⟩

theorem readImage_no_err_kinds {data : List Nat} {p : Nat} {e : CursorError}
    (h : readImage data p = .err e) :
    e = .IoError ∨ e = .CorruptXcursorFile := by
  unfold readImage at h
  cases h0 : (Rd.readU329 ⟨data, p⟩) with
  | none =>
    simp only [h0] at h
    cases h
    exact Or.inl rfl
  | some v =>
    obtain ⟨a, b, c, d, w, hh, xh, yh, dl, r1⟩ := v
    simp only [h0] at h
    split at h
    · split at h
      · exact absurd h (by simp)
      · cases h1 : r1.readBytes (w * hh * 4) with
        | none =>
          simp only [h1] at h
          cases h
          exact Or.inl rfl
        | some px =>
          simp only [h1] at h
          exact absurd h (by simp)
    · cases h
      exact Or.inr rfl

theorem readImages_no_panic {data : List Nat}
    (hcap : ∀ p, readImage data p ≠ .panic) :
    ∀ ps : List Nat, readImages data ps ≠ .panic := by
  intro ps
  induction ps with
  | nil => simp [readImages]
  | cons p rest ih =>
    unfold readImages
    cases h0 : readImage data p with
    | ok img =>
      cases h1 : readImages data rest with
      | ok m => simp
      | err e => simp
      | panic => exact absurd h1 ih
    | err e => simp
    | panic => exact absurd h0 (hcap p)

theorem readImages_err_kinds {data : List Nat} {e : CursorError} :
    ∀ ps : List Nat, readImages data ps = .err e →
      e = .IoError ∨ e = .CorruptXcursorFile := by
  intro ps
  induction ps with
  | nil => intro h; exact absurd h (by simp [readImages])
  | cons p rest ih =>
    intro h
    unfold readImages at h
    cases h0 : readImage data p with
    | ok img =>
      simp only [h0] at h
      cases h1 : readImages data rest with
      | ok m => simp only [h1] at h; exact absurd h (by simp)
      | err e1 =>
        simp only [h1] at h
        cases h
        exact ih h1
      | panic => simp only [h1] at h; exact absurd h (by simp)
    | err e1 =>
      simp only [h0] at h
      cases h
      exact readImage_no_err_kinds h0
    | panic => simp only [h0] at h; exact absurd h (by simp)

theorem readImages_ok_lookup {data : List Nat} :
    ∀ {ps : List Nat} {m : List (Nat × XCursorImage)},
      readImages data ps = .ok m → ∀ p ∈ ps, ∃ img, alookup p m = some img := by
  intro ps
  induction ps with
  | nil => intro m _ p hp; exact absurd hp (by simp)
  | cons q rest ih =>
    intro m h p hp
    unfold readImages at h
    cases h0 : readImage data q with
    | ok img =>
      simp only [h0] at h
      cases h1 : readImages data rest with
      | ok m1 =>
        simp only [h1] at h
        cases h
        rcases List.mem_cons.mp hp with rfl | hp1
        · exact ⟨img, by simp [alookup]⟩
        · by_cases hq : q = p
          · exact ⟨img, by simp [alookup, hq]⟩
          · obtain ⟨img1, himg1⟩ := ih h1 p hp1
            exact ⟨img1, by simp [alookup, hq, himg1]⟩
      | err e => simp only [h1] at h; exact absurd h (by simp)
      | panic => simp only [h1] at h; exact absurd h (by simp)
    | err e => simp only [h0] at h; exact absurd h (by simp)
    | panic => simp only [h0] at h; exact absurd h (by simp)

theorem buildFrame_ok {images : List (Nat × XCursorImage)} {i : Nat} :
    ∀ {ts : List Target} {acc : Frame},
      (∀ t ∈ ts, ∃ p, t.positions.get? i = some p ∧
        ∃ img, alookup p images = some img) →
      ∃ f, buildFrame images i ts acc = .ok f := by
  intro ts
  induction ts with
  | nil => intro acc _; exact ⟨acc, rfl⟩
  | cons t rest ih =>
    intro acc hh
    obtain ⟨p, hp, img, himg⟩ := hh t (by simp)
    unfold buildFrame
    simp only [hp, himg]
    exact ih fun t1 ht1 => hh t1 (List.mem_cons_of_mem _ ht1)

theorem buildFrame_keys {images : List (Nat × XCursorImage)} {i : Nat} :
    ∀ {ts : List Target} {acc f : Frame},
      buildFrame images i ts acc = .ok f →
      ∀ k : Nat × Nat,
        ((∃ t ∈ ts, (t.scale, t.size) = k) ∨ (alookup k acc).isSome) →
        (alookup k f).isSome := by
  intro ts
  induction ts with
  | nil =>
    intro acc f h k hk
    unfold buildFrame at h
    cases h
    rcases hk with ⟨t, ht, -⟩ | hk
    · exact absurd ht (by simp)
    · exact hk
  | cons t rest ih =>
    intro acc f h k hk
    unfold buildFrame at h
    cases h0 : t.positions.get? i with
    | none => simp only [h0] at h; exact absurd h (by simp)
    | some p =>
      simp only [h0] at h
      cases h1 : alookup p images with
      | none => simp only [h1] at h; exact absurd h (by simp)
      | some img =>
        simp only [h1] at h
        refine ih h k ?_
        rcases hk with ⟨t1, ht1, hts⟩ | hacc
        · rcases List.mem_cons.mp ht1 with rfl | ht2
          · right
            rw [alookup_ainsert, if_pos hts]
            simp
          · exact Or.inl ⟨t1, ht2, hts⟩
        · right
          rw [alookup_ainsert]
          split
          · simp
          · exact hacc

theorem buildFrame_nodup {images : List (Nat × XCursorImage)} {i : Nat} :
    ∀ {ts : List Target} {acc f : Frame},
      buildFrame images i ts acc = .ok f →
      (acc.map Prod.fst).Nodup → (f.map Prod.fst).Nodup := by
  intro ts
  induction ts with
  | nil =>
    intro acc f h hacc
    unfold buildFrame at h
    cases h
    exact hacc
  | cons t rest ih =>
    intro acc f h hacc
    unfold buildFrame at h
    cases h0 : t.positions.get? i with
    | none => simp only [h0] at h; exact absurd h (by simp)
    | some p =>
      simp only [h0] at h
      cases h1 : alookup p images with
      | none => simp only [h1] at h; exact absurd h (by simp)
      | some img =>
        simp only [h1] at h
        exact ih h (ainsert_keys_nodup _ _ _ hacc)

theorem buildFrame_no_err {images : List (Nat × XCursorImage)} {i : Nat} :
    ∀ {ts : List Target} {acc : Frame} {e : CursorError},
      buildFrame images i ts acc ≠ .err e := by
  intro ts
  induction ts with
  | nil => intro acc e; simp [buildFrame]
  | cons t rest ih =>
    intro acc e
    unfold buildFrame
    cases h0 : t.positions.get? i with
    | none => simp [h0]
    | some p =>
      cases h1 : alookup p images with
      | none => simp [h0, h1]
      | some img =>
        simp only [h0, h1]
        exact ih

theorem buildFrames_ok {images : List (Nat × XCursorImage)} {ts : List Target} :
    ∀ {is : List Nat},
      (∀ i ∈ is, ∃ f, buildFrame images i ts [] = .ok f) →
      ∃ fs, buildFrames images ts is = .ok fs ∧ fs.length = is.length := by
  intro is
  induction is with
  | nil => intro _; exact ⟨[], rfl, rfl⟩
  | cons i rest ih =>
    intro hh
    obtain ⟨f, hf⟩ := hh i (by simp)
    obtain ⟨fs, hfs, hlen⟩ := ih fun j hj => hh j (List.mem_cons_of_mem _ hj)
    refine ⟨f :: fs, ?_, by simp [hlen]⟩
    unfold buildFrames
    rw [hf, hfs]

theorem buildFrames_length {images : List (Nat × XCursorImage)}
    {ts : List Target} :
    ∀ {is : List Nat} {fs : List Frame},
      buildFrames images ts is = .ok fs → fs.length = is.length := by
  intro is
  induction is with
  | nil =>
    intro fs h
    unfold buildFrames at h
    cases h
    rfl
  | cons i rest ih =>
    intro fs h
    unfold buildFrames at h
    cases h0 : buildFrame images i ts [] with
    | ok f =>
      simp only [h0] at h
      cases h1 : buildFrames images ts rest with
      | ok fs1 =>
        simp only [h1] at h
        cases h
        simp [ih h1]
      | err e => simp only [h1] at h; exact absurd h (by simp)
      | panic => simp only [h1] at h; exact absurd h (by simp)
    | err e => simp only [h0] at h; exact absurd h (by simp)
    | panic => simp only [h0] at h; exact absurd h (by simp)

theorem buildFrames_mem {images : List (Nat × XCursorImage)}
    {ts : List Target} :
    ∀ {is : List Nat} {fs : List Frame},
      buildFrames images ts is = .ok fs → ∀ f ∈ fs,
        ∃ i ∈ is, buildFrame images i ts [] = .ok f := by
  intro is
  induction is with
  | nil =>
    intro fs h f hf
    unfold buildFrames at h
    cases h
    exact absurd hf (by simp)
  | cons i rest ih =>
    intro fs h f hf
    unfold buildFrames at h
    cases h0 : buildFrame images i ts [] with
    | ok f1 =>
      simp only [h0] at h
      cases h1 : buildFrames images ts rest with
      | ok fs1 =>
        simp only [h1] at h
        cases h
        rcases List.mem_cons.mp hf with rfl | hf1
        · exact ⟨i, by simp, h0⟩
        · obtain ⟨j, hj, hbj⟩ := ih h1 f hf1
          exact ⟨j, List.mem_cons_of_mem _ hj, hbj⟩
      | err e => simp only [h1] at h; exact absurd h (by simp)
      | panic => simp only [h1] at h; exact absurd h (by simp)
    | err e => simp only [h0] at h; exact absurd h (by simp)
    | panic => simp only [h0] at h; exact absurd h (by simp)

theorem buildFrames_no_err {images : List (Nat × XCursorImage)}
    {ts : List Target} :
    ∀ {is : List Nat} {e : CursorError}, buildFrames images ts is ≠ .err e := by
  intro is
  induction is with
  | nil => intro e; simp [buildFrames]
  | cons i rest ih =>
    intro e
    unfold buildFrames
    cases h0 : buildFrame images i ts [] with
    | ok f =>
      cases h1 : buildFrames images ts rest with
      | ok fs => simp [h0, h1]
      | err e1 => exact absurd h1 ih
      | panic => simp [h0, h1]
    | err e1 => exact absurd h0 buildFrame_no_err
    | panic => simp [h0]

theorem frameCount_spec {ts : List Target} {t0 : Target} (ht0 : t0 ∈ ts)
    (hne : ∀ t ∈ ts, t.positions ≠ []) :
    1 ≤ (frameCount ts t0.positions.length).2 ∧
    ∀ t ∈ ts, (frameCount ts t0.positions.length).2 ≤ t.positions.length := by
  have hlen : ∀ t ∈ ts, 1 ≤ t.positions.length := fun t ht =>
    List.length_pos.mpr (hne t ht)
  have h0 : 1 ≤ t0.positions.length := hlen t0 ht0
  unfold frameCount
  cases hw : (decide (1 < t0.positions.length) &&
      ts.any fun t => decide (t.positions.length ≠ t0.positions.length)) with
  | true => exact ⟨le_refl 1, fun t ht => hlen t ht⟩
  | false =>
    simp only []
    rcases Bool.and_eq_false_iff.mp hw with h1 | h1
    · have : ¬ 1 < t0.positions.length := by
        simpa using h1
      have hnum : t0.positions.length = 1 := by omega
      rw [hnum]
      exact ⟨le_refl 1, fun t ht => hlen t ht⟩
    · have hall : ∀ t ∈ ts, t.positions.length = t0.positions.length := by
        intro t ht
        have := List.any_eq_false.mp h1 t ht
        simpa using this
      exact ⟨h0, fun t ht => le_of_eq (hall t ht).symm⟩

theorem parseAfterScan_err_kinds {data : List Nat} {ts : List Target}
    {e : CursorError} (h : parseAfterScan data ts = .err e) :
    e = .EmptyXcursorFile ∨ e = .IoError ∨ e = .CorruptXcursorFile := by
  simp only [parseAfterScan] at h
  by_cases hpos : allPositions ts = []
  · rw [if_pos hpos] at h
    cases h
    exact Or.inl rfl
  · rw [if_neg hpos] at h
    cases h0 : readImages data (allPositions ts) with
    | err e1 =>
      simp only [h0] at h
      cases h
      exact Or.inr (readImages_err_kinds _ h0)
    | panic => simp only [h0] at h; exact absurd h (by simp)
    | ok images =>
      simp only [h0] at h
      cases ts with
      | nil => exact absurd h (by simp)
      | cons t0 rest =>
        simp only [] at h
        cases h1 : buildFrames images (t0 :: rest)
            (List.range (frameCount (t0 :: rest) t0.positions.length).2) with
        | ok frames => simp only [h1] at h; exact absurd h (by simp)
        | err e1 => exact absurd h1 buildFrames_no_err
        | panic => simp only [h1] at h; exact absurd h (by simp)

theorem goodT_right_of_pos_ne {ts : List Target} (hgood : GoodT ts)
    (hpos : allPositions ts ≠ []) : ∀ t ∈ ts, t.positions ≠ [] := by
  obtain ⟨t, ht, htne⟩ := allPositions_ne_nil.mp hpos
  rcases hgood with hfresh | hne
  · exact absurd (hfresh t ht).2.1 htne
  · exact hne

theorem parseAfterScan_buildFrame_ok {data : List Nat} {ts : List Target}
    {images : List (Nat × XCursorImage)} {t0 : Target}
    (hts : ts.head? = some t0)
    (hne : ∀ t ∈ ts, t.positions ≠ [])
    (himg : readImages data (allPositions ts) = .ok images) :
    ∀ i < (frameCount ts t0.positions.length).2,
      ∃ f, buildFrame images i ts [] = .ok f := by
  intro i hi
  have ht0 : t0 ∈ ts := by
    cases ts with
    | nil => exact absurd hts (by simp)
    | cons a rest =>
      simp only [List.head?] at hts
      cases hts
      simp
  refine buildFrame_ok ?_
  intro t ht
  have hile : i < t.positions.length :=
    lt_of_lt_of_le hi ((frameCount_spec ht0 hne).2 t ht)
  obtain ⟨p, hp⟩ : ∃ p, t.positions.get? i = some p := by
    rw [List.get?_eq_get hile]
    exact ⟨_, rfl⟩
  refine ⟨p, hp, ?_⟩
  have hpmem : p ∈ t.positions := List.get?_mem hp
  exact readImages_ok_lookup himg p (mem_allPositions.mpr ⟨t, ht, hpmem⟩)

theorem parseAfterScan_no_panic {data : List Nat} {ts : List Target}
    (hgood : GoodT ts) (hcap : ∀ p, readImage data p ≠ .panic) :
    parseAfterScan data ts ≠ .panic := by
  simp only [parseAfterScan]
  by_cases hpos : allPositions ts = []
  · rw [if_pos hpos]
    simp
  · rw [if_neg hpos]
    have hne := goodT_right_of_pos_ne hgood hpos
    cases h0 : readImages data (allPositions ts) with
    | err e1 => simp
    | panic => exact absurd h0 (readImages_no_panic hcap _)
    | ok images =>
      simp only []
      cases hts : ts with
      | nil => exact absurd (hts ▸ hpos) (by simp [allPositions, dedupFirst])
      | cons t0 rest =>
        simp only []
        have hframe := parseAfterScan_buildFrame_ok
          (show (t0 :: rest).head? = some t0 from rfl)
          (hts ▸ hne) (hts ▸ h0)
        obtain ⟨fs, hfs, -⟩ := buildFrames_ok
          (fun i hi => hframe i (List.mem_range.mp hi))
        rw [hfs]
        simp

theorem parseAfterScan_ok_spec {data : List Nat} {ts : List Target}
    {t0 : Target} {res : OpenCursorResult}
    (hts : ts.head? = some t0)
    (hne : ∀ t ∈ ts, t.positions ≠ [])
    (hok : parseAfterScan data ts = .ok res) :
    res.warned = (decide (1 < t0.positions.length) &&
        ts.any fun t => decide (t.positions.length ≠ t0.positions.length)) ∧
    res.images.length = (frameCount ts t0.positions.length).2 ∧
    1 ≤ res.images.length ∧
    ∀ f ∈ res.images,
      (∀ t ∈ ts, (alookup (t.scale, t.size) f).isSome) ∧
      (f.map Prod.fst).Nodup := by
  have ht0 : t0 ∈ ts := by
    cases ts with
    | nil => exact absurd hts (by simp)
    | cons a rest => simp only [List.head?] at hts; cases hts; simp
  simp only [parseAfterScan] at hok
  by_cases hpos : allPositions ts = []
  · rw [if_pos hpos] at hok
    exact absurd hok (by simp)
  · rw [if_neg hpos] at hok
    cases h0 : readImages data (allPositions ts) with
    | err e1 => simp only [h0] at hok; exact absurd hok (by simp)
    | panic => simp only [h0] at hok; exact absurd hok (by simp)
    | ok images =>
      simp only [h0] at hok
      cases hcase : ts with
      | nil => exact absurd (hcase ▸ hpos) (by simp [allPositions, dedupFirst])
      | cons ta rest =>
        subst hcase
        have hta : ta = t0 := by
          simp only [List.head?] at hts
          cases hts
          rfl
        subst hta
        simp only [] at hok
        cases h1 : buildFrames images (ta :: rest)
            (List.range (frameCount (ta :: rest) ta.positions.length).2) with
        | err e1 => exact absurd h1 buildFrames_no_err
        | panic => simp only [h1] at hok; exact absurd hok (by simp)
        | ok frames =>
          simp only [h1] at hok
          cases hok
          refine ⟨rfl, ?_, ?_, ?_⟩
          · simpa using buildFrames_length h1
          · have := buildFrames_length h1
            simp only [List.length_range] at this
            simp only [this]
            exact (frameCount_spec ht0 hne).1
          · intro f hf
            obtain ⟨i, -, hbf⟩ := buildFrames_mem h1 f hf
            constructor
            · intro t ht
              exact buildFrame_keys hbf _ (Or.inl ⟨t, ht, rfl⟩)
            · exact buildFrame_nodup hbf (by simp)

theorem parseAfterScan_ne_notAn {data : List Nat} {ts : List Target} :
    parseAfterScan data ts ≠ .err .NotAnXcursorFile := by
  intro h
  rcases parseAfterScan_err_kinds h with h1 | h1 | h1 <;> cases h1

theorem parseAfterScan_ok_pos_ne {data : List Nat} {ts : List Target}
    {res : OpenCursorResult} (hok : parseAfterScan data ts = .ok res) :
    allPositions ts ≠ [] := by
  intro hpos
  simp only [parseAfterScan, if_pos hpos] at hok
  exact absurd hok (by simp)

/-- C2: the Xcursor decoder is total, **except** that reading an image chunk
whose declared `width*height*4` exceeds `isize::MAX` panics in
`Vec::reserve_exact` (capacity overflow); under the hypothesis that no chunk
of the stream does so, every input and target list yields either a frame set
or one of the defined `CursorError` kinds (never a panic), and a file whose
magic is `0x72756358` and whose `header_size` is any value ≥ 16 passes header
validation (`NotAnXcursorFile` is never produced). -/
theorem xcursor_decoder_total (data scales sizes : List Nat)
    (hcap : ∀ p, readImage data p ≠ .panic) :
    parser_cursor_file data scales sizes ≠ .panic ∧
    (∀ hdr r1, Rd.readU322 ⟨data, 0⟩ = some (XCURSOR_MAGIC, hdr, r1) →
      HEADER_SIZE ≤ hdr →
      parser_cursor_file data scales sizes ≠ .err .NotAnXcursorFile) := by
  cases h0 : Rd.readU322 ⟨data, 0⟩ with
  | none =>
    have he : parser_cursor_file data scales sizes = .err .IoError := by
      simp only [parser_cursor_file, h0]
    refine ⟨by rw [he]; simp, fun hdr r1 hh hge => ?_⟩
    exact absurd hh (by simp)
  | some v =>
    obtain ⟨magic, header, r1⟩ := v
    by_cases hmag : magic ≠ XCURSOR_MAGIC ∨ header < HEADER_SIZE
    · have he : parser_cursor_file data scales sizes = .err .NotAnXcursorFile := by
        simp only [parser_cursor_file, h0, if_pos hmag]
      refine ⟨by rw [he]; simp, fun hdr r2 hh hge => ?_⟩
      simp only [Option.some.injEq, Prod.mk.injEq] at hh
      obtain ⟨rfl, rfl, rfl⟩ := hh
      rcases hmag with hmag | hmag
      · exact absurd rfl hmag
      · exact absurd hmag (by omega)
    · have hrest : parser_cursor_file data scales sizes =
          (match r1.readU322 with
           | none => .err .IoError
           | some (_ver, ntoc, r2) =>
             if 0x10000 < ntoc then .err .OversizedXcursorFile
             else
               match scanToc (tocReader r2 header) (mkTargets scales sizes) ntoc with
               | none => .err .IoError
               | some (ts, _) => parseAfterScan data ts) := by
        simp only [parser_cursor_file, h0, if_neg hmag]
      cases h2 : r1.readU322 with
      | none =>
        simp only [h2] at hrest
        exact ⟨by rw [hrest]; simp, fun _ _ _ _ => by rw [hrest]; simp⟩
      | some v2 =>
        obtain ⟨ver, ntoc, r2⟩ := v2
        simp only [h2] at hrest
        by_cases hn : 0x10000 < ntoc
        · rw [if_pos hn] at hrest
          exact ⟨by rw [hrest]; simp, fun _ _ _ _ => by rw [hrest]; simp⟩
        · rw [if_neg hn] at hrest
          cases h3 : scanToc (tocReader r2 header) (mkTargets scales sizes) ntoc with
          | none =>
            simp only [h3] at hrest
            exact ⟨by rw [hrest]; simp, fun _ _ _ _ => by rw [hrest]; simp⟩
          | some v3 =>
            obtain ⟨ts, rf⟩ := v3
            simp only [h3] at hrest
            have hgood : GoodT ts := scanToc_good (Or.inl mkTargets_fresh) h3
            exact ⟨hrest ▸ parseAfterScan_no_panic hgood hcap,
              fun _ _ _ _ => hrest ▸ parseAfterScan_ne_notAn⟩

/-- Little-endian bytes of a `u32`. -/
def mkW (n : Nat) : List Nat :=
  [n % 256, n / 256 % 256, n / 65536 % 256, n / 16777216 % 256]

/-- A well-formed one-frame Xcursor file: one image-type TOC entry of size 24
whose chunk (at offset 28) is a 1x1 image with pixel bytes `[9, 9, 9, 9]`. -/
def goodBytes : List Nat :=
  mkW 0x72756358 ++ mkW 16 ++ mkW 1 ++ mkW 1 ++
  mkW 0xfffd0002 ++ mkW 24 ++ mkW 28 ++
  mkW 36 ++ mkW 0xfffd0002 ++ mkW 24 ++ mkW 1 ++
  mkW 1 ++ mkW 1 ++ mkW 0 ++ mkW 0 ++ mkW 0 ++ [9, 9, 9, 9]

/-- A malformed Xcursor file whose selected image chunk declares
`width = height = 0x7fffffff`, so the pixel-buffer byte count
`width*height*4 = 2^64 - 2^34 + 4` exceeds `isize::MAX`. -/
def hugeBytes : List Nat :=
  mkW 0x72756358 ++ mkW 16 ++ mkW 1 ++ mkW 1 ++
  mkW 0xfffd0002 ++ mkW 24 ++ mkW 28 ++
  mkW 36 ++ mkW 0xfffd0002 ++ mkW 24 ++ mkW 1 ++
  mkW 0x7fffffff ++ mkW 0x7fffffff ++ mkW 0 ++ mkW 0 ++ mkW 0

/-- C2 counterexample: decoding `hugeBytes` with target (scale 1, size 24)
reaches `Vec::reserve_exact` with a byte count above `isize::MAX` and panics,
so the decoder is not total on all inputs. -/
theorem xcursor_decoder_capacity_panic :
    parser_cursor_file hugeBytes [1] [24] = DOut.panic := by decide

/-- C2 witness: the decoder hypothesis and conclusion at the empty stream. -/
theorem xcursor_decoder_total_witness :
    parser_cursor_file [] [1] [24] ≠ DOut.panic ∧
    (∀ hdr r1, Rd.readU322 ⟨[], 0⟩ = some (XCURSOR_MAGIC, hdr, r1) →
      HEADER_SIZE ≤ hdr →
      parser_cursor_file [] [1] [24] ≠ .err .NotAnXcursorFile) :=
  xcursor_decoder_total [] [1] [24] (fun p => by
    simp [readImage, Rd.readU329, Rd.readU323, Rd.readU322, Rd.readU32,
      readU32At, byteAt])

/-- C3: best-fit displacement.  Scanning an image-type TOC entry displaces a
target's current best size only on a strictly smaller absolute distance to
the effective size (discarding the accumulated positions), appends the
position whenever the entry's size equals the current best size, and leaves
the target unchanged otherwise (so equal-distance ties keep the
first-encountered size).  Consequently for TOC sizes 16, 24, 32 in file
order and effective size 22, size 24 is selected. -/
theorem best_fit_selection :
    (∀ (t : Target) (sz p : Nat),
        (((sz : Int) - (t.effective_size : Int)).natAbs : Int) < t.best_fit →
        updateTarget sz p t =
          { t with
              best_fit := (((sz : Int) - (t.effective_size : Int)).natAbs : Int)
              best_fit_size := sz
              positions := [p] }) ∧
    (∀ (t : Target) (sz p : Nat),
        ¬ (((sz : Int) - (t.effective_size : Int)).natAbs : Int) < t.best_fit →
        sz = t.best_fit_size →
        updateTarget sz p t = { t with positions := t.positions ++ [p] }) ∧
    (∀ (t : Target) (sz p : Nat),
        ¬ (((sz : Int) - (t.effective_size : Int)).natAbs : Int) < t.best_fit →
        sz ≠ t.best_fit_size →
        updateTarget sz p t = t) ∧
    ((([(16, 100), (24, 200), (32, 300)] : List (Nat × Nat)).foldl
        (fun t e => updateTarget e.1 e.2 t)
        { positions := [], effective_size := 22, size := 22, scale := 1
          best_fit := INIT_FIT, best_fit_size := 0 }).best_fit_size = 24 ∧
     (([(16, 100), (24, 200), (32, 300)] : List (Nat × Nat)).foldl
        (fun t e => updateTarget e.1 e.2 t)
        { positions := [], effective_size := 22, size := 22, scale := 1
          best_fit := INIT_FIT, best_fit_size := 0 }).positions = [200]) := by
  refine ⟨?_, ?_, ?_, by decide⟩
  · intro t sz p hlt
    simp only [updateTarget]
    rw [if_pos hlt]
    simp
  · intro t sz p hge heq
    simp only [updateTarget]
    rw [if_neg hge, if_pos heq]
  · intro t sz p hge hne
    simp only [updateTarget]
    rw [if_neg hge, if_neg hne]

/-- C3 witness: the displacement clauses applied at a concrete fresh target
(effective size 22) and entry size 24. -/
theorem best_fit_selection_witness :
    updateTarget 24 200
        { positions := [], effective_size := 22, size := 22, scale := 1
          best_fit := INIT_FIT, best_fit_size := 0 } =
      { positions := [200], effective_size := 22, size := 22, scale := 1
        best_fit := 2, best_fit_size := 24 } := by
  have h := best_fit_selection.1
      { positions := [], effective_size := 22, size := 22, scale := 1
        best_fit := INIT_FIT, best_fit_size := 0 } 24 200 (by decide)
  rw [h]
  decide

theorem scanToc_scale_size_mem {r : Rd} {scales sizes : List Nat} {n : Nat}
    {ts : List Target} {rf : Rd} {sc sz : Nat}
    (h3 : scanToc r (mkTargets scales sizes) n = some (ts, rf))
    (hsc : sc ∈ scales) (hsz : sz ∈ sizes) :
    ∃ t ∈ ts, t.scale = sc ∧ t.size = sz := by
  have hmaps := scanToc_fields h3
  have hmem :
      (sc, sz, min (sz * sc) (2^32 - 1)) ∈
        (mkTargets scales sizes).map
          (fun t => (t.scale, t.size, t.effective_size)) :=
    List.mem_map.mpr
      ⟨{ positions := [], effective_size := min (sz * sc) (2^32 - 1)
         size := sz, scale := sc, best_fit := INIT_FIT, best_fit_size := 0 },
       mem_mkTargets.mpr ⟨sc, hsc, sz, hsz, rfl⟩, rfl⟩
  rw [← hmaps] at hmem
  obtain ⟨t, ht, heq⟩ := List.mem_map.mp hmem
  simp only [Prod.mk.injEq] at heq
  exact ⟨t, ht, heq.1, heq.2.1⟩

/-- C4: when decoding succeeds, the number of frames equals the first
target's candidate count when every target recorded the same count (no
warning); when some target differs and the first count exceeds one, the
result degrades to exactly one frame with the warning recorded; and every
frame maps every requested (scale, size) pair to exactly one image. -/
theorem frame_set_invariant (data scales sizes : List Nat)
    (magic hdr ver ntoc : Nat) (r1 r2 rf : Rd) (ts : List Target) (t0 : Target)
    (res : OpenCursorResult)
    (h1 : Rd.readU322 ⟨data, 0⟩ = some (magic, hdr, r1))
    (h2 : r1.readU322 = some (ver, ntoc, r2))
    (h3 : scanToc (tocReader r2 hdr) (mkTargets scales sizes) ntoc = some (ts, rf))
    (ht0 : ts.head? = some t0)
    (hok : parser_cursor_file data scales sizes = .ok res) :
    ((∀ t ∈ ts, t.positions.length = t0.positions.length) →
        res.images.length = t0.positions.length ∧ res.warned = false) ∧
    (1 < t0.positions.length →
      (∃ t ∈ ts, t.positions.length ≠ t0.positions.length) →
        res.images.length = 1 ∧ res.warned = true) ∧
    (∀ f ∈ res.images, ∀ sc ∈ scales, ∀ sz ∈ sizes,
        (∃ img, alookup (sc, sz) f = some img) ∧ (f.map Prod.fst).Nodup) := by
  have hscanok : parser_cursor_file data scales sizes = parseAfterScan data ts := by
    simp only [parser_cursor_file, h1]
    by_cases hmag : magic ≠ XCURSOR_MAGIC ∨ hdr < HEADER_SIZE
    · exfalso
      simp only [parser_cursor_file, h1, if_pos hmag] at hok
      exact absurd hok (by simp)
    · rw [if_neg hmag]
      simp only [h2]
      by_cases hn : 0x10000 < ntoc
      · exfalso
        simp only [parser_cursor_file, h1, if_neg hmag, h2, if_pos hn] at hok
        exact absurd hok (by simp)
      · rw [if_neg hn]
        simp only [h3]
  rw [hscanok] at hok
  have hne : ∀ t ∈ ts, t.positions ≠ [] :=
    goodT_right_of_pos_ne (scanToc_good (Or.inl mkTargets_fresh) h3)
      (parseAfterScan_ok_pos_ne hok)
  obtain ⟨hwarn, hlen, hone, hkeys⟩ := parseAfterScan_ok_spec ht0 hne hok
  have ht0mem : t0 ∈ ts := by
    cases ts with
    | nil => exact absurd ht0 (by simp)
    | cons a rest => simp only [List.head?] at ht0; cases ht0; simp
  refine ⟨?_, ?_, ?_⟩
  · intro hall
    have hany : (ts.any fun t =>
        decide (t.positions.length ≠ t0.positions.length)) = false := by
      refine List.any_eq_false.mpr fun t ht => by simp [hall t ht]
    have hw : res.warned = false := by
      rw [hwarn, hany, Bool.and_false]
    refine ⟨?_, hw⟩
    rw [hlen]
    unfold frameCount
    simp only [hany, Bool.and_false]
    simp
  · intro hlt hex
    have hany : (ts.any fun t =>
        decide (t.positions.length ≠ t0.positions.length)) = true := by
      obtain ⟨t, ht, htn⟩ := hex
      exact List.any_eq_true.mpr ⟨t, ht, by simp [htn]⟩
    have hw : res.warned = true := by
      rw [hwarn, hany, Bool.and_true]
      simp [hlt]
    refine ⟨?_, hw⟩
    rw [hlen]
    unfold frameCount
    simp only [hany, Bool.and_true, decide_eq_true_eq]
    simp [hlt]
  · intro f hf sc hsc sz hsz
    obtain ⟨t, ht, hts, htz⟩ := scanToc_scale_size_mem h3 hsc hsz
    obtain ⟨hsome, hnodup⟩ := hkeys f hf
    have := hsome t ht
    rw [hts, htz] at this
    exact ⟨Option.isSome_iff_exists.mp this, hnodup⟩

/-- The target state after scanning `goodBytes` for (scale 1, size 24). -/
def goodT0 : Target :=
  { positions := [28], effective_size := 24, size := 24, scale := 1
    best_fit := 0, best_fit_size := 24 }

def goodTs : List Target := [goodT0]

/-- The decode result of `goodBytes` for (scale 1, size 24). -/
def goodRes : OpenCursorResult :=
  { images := [[((1, 24),
      { width := 1, height := 1, xhot := 0, yhot := 0, delay := 0
        pixels := [9, 9, 9, 9] })]]
    warned := false }

/-- C4 witness: the frame-set invariant at the concrete file `goodBytes`. -/
theorem frame_set_invariant_witness :
    ((∀ t ∈ goodTs, t.positions.length = goodT0.positions.length) →
        goodRes.images.length = goodT0.positions.length ∧
        goodRes.warned = false) ∧
    (1 < goodT0.positions.length →
      (∃ t ∈ goodTs, t.positions.length ≠ goodT0.positions.length) →
        goodRes.images.length = 1 ∧ goodRes.warned = true) ∧
    (∀ f ∈ goodRes.images, ∀ sc ∈ [1], ∀ sz ∈ [24],
        (∃ img, alookup (sc, sz) f = some img) ∧ (f.map Prod.fst).Nodup) :=
  frame_set_invariant goodBytes [1] [24] 0x72756358 16 1 1
    ⟨goodBytes, 8⟩ ⟨goodBytes, 16⟩ ⟨goodBytes, 28⟩ goodTs goodT0 goodRes
    (by decide) (by decide) (by decide) (by decide) (by decide)

/-! ## Theme files and the locator (`find_parent_themes`, `open_cursor_file`,
`open_cursor`) -/

/-- A byte string (`BString`). -/
abbrev BStr := List Nat

/-- The filesystem seen by the locator: maps a path to the contents of the
file there, `none` when `File::open` fails. -/
structure Fs where
  file : BStr → Option (List Nat)

def cursorFilePath (path theme name : BStr) : BStr :=
  path ++ strB "/" ++ theme ++ strB "/cursors/" ++ name

def indexFilePath (path theme : BStr) : BStr :=
  path ++ strB "/" ++ theme ++ strB "/index.theme"

/-- Line chunks as produced by reading up to each newline byte
(`read_until`): each line keeps its terminator; a final unterminated chunk
is returned once. -/
def splitLinesAux : List Nat → List Nat → List (List Nat)
  | [], acc => if acc = [] then [] else [acc.reverse]
  | b :: rest, acc =>
    if b = 10 then (acc.reverse ++ [10]) :: splitLinesAux rest []
    else splitLinesAux rest (b :: acc)

def splitLines (content : List Nat) : List (List Nat) := splitLinesAux content []

/-- Slice strip-prefix. -/
def stripPfx : List Nat → List Nat → Option (List Nat)
  | [], l => some l
  | _ :: _, [] => none
  | p :: ps, b :: bs => if b = p then stripPfx ps bs else none

/-- Skip leading space bytes (the source skips only spaces here). -/
def dropSpaces : List Nat → List Nat
  | 32 :: rest => dropSpaces rest
  | l => l

/-- Slice split on space, tab, newline, semicolon, comma. -/
def splitDelimsAux : List Nat → List Nat → List (List Nat)
  | [], acc => [acc.reverse]
  | b :: rest, acc =>
    if b = 32 ∨ b = 9 ∨ b = 10 ∨ b = 59 ∨ b = 44 then
      acc.reverse :: splitDelimsAux rest []
    else splitDelimsAux rest (b :: acc)

def splitDelims (l : List Nat) : List (List Nat) := splitDelimsAux l []

/-- One line of `index.theme`: `Inherits`, optional spaces, `=`, then the
delimiter-separated non-empty parent names. -/
def parseInherits (line : List Nat) : Option (List BStr) :=
  match stripPfx (strB "Inherits") line with
  | none => none
  | some s =>
    match dropSpaces s with
    | 61 :: s1 => some ((splitDelims s1).filter (fun v => !v.isEmpty))
    | _ => none

/-- The function `find_parent_themes`: the first `Inherits` line of the
file, if any. -/
def find_parent_themes (content : Option (List Nat)) : Option (List BStr) :=
  match content with
  | none => none
  | some c => (splitLines c).findSome? parseInherits

/-- The path loop of `open_cursor_file` (lines 551-566): try the cursor file
under every search path, remembering the parent themes from the first
`index.theme` that yields any; a found file returns immediately. -/
def updParents (fs : Fs) (theme p : BStr) :
    Option (List BStr) → Option (List BStr)
  | none => find_parent_themes (fs.file (indexFilePath p theme))
  | some ps => some ps

def tryPaths (fs : Fs) (theme name : BStr) :
    List BStr → Option (List BStr) → Option (List Nat) × Option (List BStr)
  | [], parents => (none, parents)
  | p :: rest, parents =>
    match fs.file (cursorFilePath p theme name) with
    | some f => (some f, parents)
    | none => tryPaths fs theme name rest (updParents fs theme p parents)

abbrev Visited := List (BStr × BStr)

/-- The recursion of `open_cursor_file`, with the parent-list walk as a
second argument and an explicit fuel bound (the source recursion has no
bound; termination is the content of claim C5).  `none` models running out
of fuel, which the termination theorem shows cannot happen for sufficient
fuel. -/
def locStep (fs : Fs) (paths : List BStr) (name : BStr) :
    Nat → Visited → (BStr ⊕ List BStr) → Option (Option (List Nat) × Visited)
  | 0, v, .inr [] => some (none, v)
  | _+1, v, .inr [] => some (none, v)
  | 0, _, .inl _ => none
  | 0, _, .inr (_ :: _) => none
  | f+1, v, .inl theme =>
    if (theme, name) ∈ v then some (none, v)
    else
      let v1 := (theme, name) :: v
      if paths = [] then some (none, v1)
      else
        match tryPaths fs theme name paths none with
        | (some file, _) => some (some file, v1)
        | (none, none) => some (none, v1)
        | (none, some parents) => locStep fs paths name f v1 (.inr parents)
  | f+1, v, .inr (p :: ps) =>
    match locStep fs paths name f v (.inl p) with
    | none => none
    | some (some file, v1) => some (some file, v1)
    | some (none, v1) => locStep fs paths name f v1 (.inr ps)

def open_cursor_file (fs : Fs) (paths : List BStr) (fuel : Nat) (v : Visited)
    (theme name : BStr) : Option (Option (List Nat) × Visited) :=
  locStep fs paths name fuel v (.inl theme)

/-- The candidate-name loop of `open_cursor` (lines 512-519 and 521-528):
each name in turn, stopping at the first found file, threading the
visited-pairs set. -/
def nameLoop (fs : Fs) (paths : List BStr) (fuel : Nat) :
    Visited → BStr → List BStr → Option (Option (List Nat) × Visited)
  | v, _, [] => some (none, v)
  | v, theme, n :: ns =>
    match open_cursor_file fs paths fuel v theme n with
    | none => none
    | some (some f, v1) => some (some f, v1)
    | some (none, v1) => nameLoop fs paths fuel v1 theme ns

/-- The function `open_cursor`: search the supplied theme (when any) for
every candidate
name, fall back to the theme `"default"`, then decode the found file. -/
def open_cursor (fs : Fs) (names : List BStr) (theme : Option BStr)
    (scales sizes : List Nat) (paths : List BStr) (fuel : Nat) :
    Option (DOut OpenCursorResult) :=
  let step1 :=
    match theme with
    | some th => nameLoop fs paths fuel [] th names
    | none => some (none, ([] : Visited))
  match step1 with
  | none => none
  | some (some f, _) => some (parser_cursor_file f scales sizes)
  | some (none, v) =>
    match nameLoop fs paths fuel v (strB "default") names with
    | none => none
    | some (some f, _) => some (parser_cursor_file f scales sizes)
    | some (none, _) => some (.err .NotFound)

/-- The number of themes of the universe `U` not yet attempted with `name`. -/
def cnt (U : List BStr) (name : BStr) (v : Visited) : Nat :=
  (U.filter (fun t => decide ((t, name) ∉ v))).length

theorem cnt_le_length {U : List BStr} {name : BStr} {v : Visited} :
    cnt U name v ≤ U.length :=
  List.length_filter_le _ _

theorem filter_length_mono {α : Type} (l : List α) (p q : α → Bool)
    (h : ∀ a, q a = true → p a = true) :
    (l.filter q).length ≤ (l.filter p).length := by
  induction l with
  | nil => simp
  | cons a rest ih =>
    by_cases hq : q a = true
    · have hp := h a hq
      simp only [List.filter_cons, hq, hp, if_true, List.length_cons]
      omega
    · by_cases hp : p a = true
      · simp [List.filter_cons, hq, hp]
        omega
      · simp [List.filter_cons, hq, hp]
        exact ih

theorem filter_length_lt {α : Type} (l : List α) (p q : α → Bool) (a0 : α)
    (h : ∀ a, q a = true → p a = true) (ha0 : a0 ∈ l)
    (hp0 : p a0 = true) (hq0 : q a0 = false) :
    (l.filter q).length < (l.filter p).length := by
  induction l with
  | nil => cases ha0
  | cons a rest ih =>
    rcases List.mem_cons.mp ha0 with rfl | hmem
    · have hmono := filter_length_mono rest p q h
      simp [List.filter_cons, hp0, hq0]
      omega
    · by_cases hq : q a = true
      · have hp := h a hq
        have hrec := ih hmem
        simp only [List.filter_cons, hq, hp, if_true, List.length_cons]
        omega
      · by_cases hp : p a = true
        · have hrec := ih hmem
          simp [List.filter_cons, hq, hp]
          omega
        · simp [List.filter_cons, hq, hp]
          exact ih hmem

theorem cnt_mono {U : List BStr} {name : BStr} {v v1 : Visited}
    (h : ∀ x ∈ v, x ∈ v1) : cnt U name v1 ≤ cnt U name v :=
  filter_length_mono U _ _ (fun a ha => by
    simp only [decide_eq_true_eq] at ha ⊢
    exact fun hv => ha (h _ hv))

theorem cnt_insert_lt {U : List BStr} {name t : BStr} {v : Visited}
    (ht : t ∈ U) (hnv : (t, name) ∉ v) :
    cnt U name ((t, name) :: v) < cnt U name v :=
  filter_length_lt U _ _ t
    (fun a ha => by
      simp only [decide_eq_true_eq, List.mem_cons] at ha ⊢
      exact fun hv => ha (Or.inr hv))
    ht (by simp [hnv]) (by simp)

theorem tryPaths_no_file {fs : Fs} {theme name : BStr}
    (hnofile : ∀ p t n, fs.file (cursorFilePath p t n) = none) :
    ∀ (ps : List BStr) (acc : Option (List BStr)),
      (tryPaths fs theme name ps acc).1 = none := by
  intro ps
  induction ps with
  | nil => intro acc; rfl
  | cons p rest ih =>
    intro acc
    unfold tryPaths
    rw [hnofile p theme name]
    exact ih _

theorem tryPaths_parents {fs : Fs} {theme name : BStr} :
    ∀ {ps : List BStr} {acc : Option (List BStr)} {r : Option (List Nat)}
      {out : List BStr},
      tryPaths fs theme name ps acc = (r, some out) →
      acc = some out ∨
        ∃ p, find_parent_themes (fs.file (indexFilePath p theme)) = some out := by
  intro ps
  induction ps with
  | nil =>
    intro acc r out h
    unfold tryPaths at h
    simp only [Prod.mk.injEq] at h
    exact Or.inl h.2
  | cons p rest ih =>
    intro acc r out h
    unfold tryPaths at h
    cases h0 : fs.file (cursorFilePath p theme name) with
    | some f =>
      simp only [h0, Prod.mk.injEq] at h
      exact Or.inl h.2
    | none =>
      simp only [h0] at h
      cases acc with
      | some ps0 =>
        rcases ih h with h1 | h1
        · simp only [updParents] at h1
          exact Or.inl h1
        · exact Or.inr h1
      | none =>
        rcases ih h with h1 | h1
        · simp only [updParents] at h1
          exact Or.inr ⟨p, h1⟩
        · exact Or.inr h1

theorem locStep_total (fs : Fs) (paths : List BStr) (name : BStr)
    (U : List BStr) (L : Nat)
    (hclosure : ∀ s ps, find_parent_themes (fs.file s) = some ps →
        (∀ x ∈ ps, x ∈ U) ∧ ps.length ≤ L)
    (hnofile : ∀ p t n, fs.file (cursorFilePath p t n) = none) :
    ∀ (fuel : Nat) (v : Visited) (arg : BStr ⊕ List BStr),
      (match arg with
       | .inl t => t ∈ U ∧ (L + 2) * cnt U name v + 1 ≤ fuel
       | .inr l => (∀ x ∈ l, x ∈ U) ∧
           (L + 2) * cnt U name v + 1 + l.length ≤ fuel) →
      ∃ v1, locStep fs paths name fuel v arg = some (none, v1) ∧
        ∀ x ∈ v, x ∈ v1 := by
  intro fuel
  induction fuel using Nat.strong_induction_on with
  | _ fuel ih =>
    intro v arg harg
    cases arg with
    | inl t =>
      obtain ⟨htU, hf⟩ := harg
      cases fuel with
      | zero => exact absurd hf (by omega)
      | succ g =>
        by_cases hv : (t, name) ∈ v
        · exact ⟨v, by simp [locStep, hv], fun x hx => hx⟩
        · have hcnt : cnt U name ((t, name) :: v) < cnt U name v :=
            cnt_insert_lt htU hv
          by_cases hp : paths = []
          · refine ⟨(t, name) :: v, ?_, fun x hx => by simp [hx]⟩
            simp [locStep, hv, hp]
          · have htp1 : (tryPaths fs t name paths none).1 = none :=
              tryPaths_no_file hnofile paths none
            cases htp : tryPaths fs t name paths none with
            | mk fst snd =>
              rw [htp] at htp1
              subst htp1
              cases snd with
              | none =>
                refine ⟨(t, name) :: v, ?_, fun x hx => by simp [hx]⟩
                simp [locStep, hv, hp, htp]
              | some parents =>
                have hparU : (∀ x ∈ parents, x ∈ U) ∧ parents.length ≤ L := by
                  rcases tryPaths_parents htp with h1 | ⟨p, h1⟩
                  · exact absurd h1 (by simp)
                  · exact hclosure _ _ h1
                have harg2 : (∀ x ∈ parents, x ∈ U) ∧
                    (L + 2) * cnt U name ((t, name) :: v) + 1 +
                      parents.length ≤ g := by
                  refine ⟨hparU.1, ?_⟩
                  have hlen := hparU.2
                  have hc1 : 1 ≤ cnt U name v := by omega
                  have heq : (L + 2) * cnt U name v =
                      (L + 2) * (cnt U name v - 1) + (L + 2) := by
                    conv_lhs =>
                      rw [show cnt U name v = (cnt U name v - 1) + 1 from by
                        omega]
                    rw [Nat.mul_succ]
                  have hmul : (L + 2) * cnt U name ((t, name) :: v) ≤
                      (L + 2) * (cnt U name v - 1) :=
                    Nat.mul_le_mul_left _ (by omega)
                  omega
                obtain ⟨v2, hv2, hsub⟩ :=
                  ih g (by omega) ((t, name) :: v) (.inr parents) harg2
                refine ⟨v2, ?_, fun x hx => hsub x (by simp [hx])⟩
                simp [locStep, hv, hp, htp, hv2]
    | inr l =>
      cases l with
      | nil =>
        exact ⟨v, by cases fuel <;> simp [locStep], fun x hx => hx⟩
      | cons p ps =>
        obtain ⟨hlU, hf⟩ := harg
        cases fuel with
        | zero => exact absurd hf (by omega)
        | succ g =>
          simp only [List.length_cons] at hf
          have harg1 : p ∈ U ∧ (L + 2) * cnt U name v + 1 ≤ g :=
            ⟨hlU p (by simp), by omega⟩
          obtain ⟨v1, hv1, hsub1⟩ := ih g (by omega) v (.inl p) harg1
          have harg2 : (∀ x ∈ ps, x ∈ U) ∧
              (L + 2) * cnt U name v1 + 1 + ps.length ≤ g := by
            refine ⟨fun x hx => hlU x (by simp [hx]), ?_⟩
            have hm : (L + 2) * cnt U name v1 ≤ (L + 2) * cnt U name v :=
              Nat.mul_le_mul_left _ (cnt_mono hsub1)
            omega
          obtain ⟨v2, hv2, hsub2⟩ := ih g (by omega) v1 (.inr ps) harg2
          refine ⟨v2, ?_, fun x hx => hsub2 x (hsub1 x hx)⟩
          simp [locStep, hv1, hv2]

theorem nameLoop_no_file (fs : Fs) (paths : List BStr)
    (U : List BStr) (L fuel : Nat) (th : BStr)
    (hclosure : ∀ s ps, find_parent_themes (fs.file s) = some ps →
        (∀ x ∈ ps, x ∈ U) ∧ ps.length ≤ L)
    (hnofile : ∀ p t n, fs.file (cursorFilePath p t n) = none)
    (hth : th ∈ U)
    (hfuel : (L + 2) * U.length + 1 ≤ fuel) :
    ∀ (ns : List BStr) (v : Visited),
      ∃ v1, nameLoop fs paths fuel v th ns = some (none, v1) := by
  intro ns
  induction ns with
  | nil => intro v; exact ⟨v, rfl⟩
  | cons n rest ih =>
    intro v
    have hcbound : (L + 2) * cnt U n v + 1 ≤ fuel := by
      have h1 : cnt U n v ≤ U.length := cnt_le_length
      have h2 : (L + 2) * cnt U n v ≤ (L + 2) * U.length :=
        Nat.mul_le_mul_left _ h1
      omega
    obtain ⟨v1, hv1, -⟩ := locStep_total fs paths n U L hclosure hnofile
      fuel v (.inl th) ⟨hth, hcbound⟩
    obtain ⟨v2, hv2⟩ := ih v1
    exact ⟨v2, by simp [nameLoop, open_cursor_file, hv1, hv2]⟩

/-- C5: the theme-locate operation terminates for every candidate-name list,
theme and search-path list — even when the `Inherits` graph has cycles or
duplicate edges — and returns `NotFound` when no theme reachable in the
search (the supplied theme, its inheritance closure `U`, and the `"default"`
fallback) contains a cursor file for any candidate name.  Fuel linear in the
theme universe suffices, which is the termination statement. -/
theorem theme_locate_terminates_not_found
    (fs : Fs) (names : List BStr) (theme : Option BStr)
    (scales sizes : List Nat) (paths : List BStr)
    (U : List BStr) (L fuel : Nat)
    (hclosure : ∀ s ps, find_parent_themes (fs.file s) = some ps →
        (∀ x ∈ ps, x ∈ U) ∧ ps.length ≤ L)
    (htheme : ∀ t, theme = some t → t ∈ U)
    (hdef : strB "default" ∈ U)
    (hfuel : (L + 2) * U.length + 1 ≤ fuel)
    (hnofile : ∀ p t n, fs.file (cursorFilePath p t n) = none) :
    open_cursor fs names theme scales sizes paths fuel =
      some (.err .NotFound) := by
  cases theme with
  | none =>
    obtain ⟨v2, hv2⟩ := nameLoop_no_file fs paths U L fuel (strB "default")
      hclosure hnofile hdef hfuel names []
    simp [open_cursor, hv2]
  | some th =>
    obtain ⟨v1, hv1⟩ := nameLoop_no_file fs paths U L fuel th
      hclosure hnofile (htheme th rfl) hfuel names []
    obtain ⟨v2, hv2⟩ := nameLoop_no_file fs paths U L fuel (strB "default")
      hclosure hnofile hdef hfuel names v1
    simp [open_cursor, hv1, hv2]

/-! ### Concrete locator scenarios -/

def ixA : BStr := indexFilePath (strB "p") (strB "A")

def ixB : BStr := indexFilePath (strB "p") (strB "B")

/-- A filesystem with a cyclic `Inherits` graph (A inherits B, B inherits A)
and no cursor files at all. -/
def fsC5 : Fs :=
  ⟨fun s =>
    if s = ixA then some (strB "Inherits=B\n")
    else if s = ixB then some (strB "Inherits=A\n")
    else none⟩

/-- C5 witness: on the cyclic two-theme filesystem the locate operation
terminates with `NotFound`. -/
theorem theme_locate_terminates_not_found_witness :
    open_cursor fsC5 [strB "n"] (some (strB "A")) [1] [24] [strB "p"] 10 =
      some (.err .NotFound) := by
  refine theme_locate_terminates_not_found fsC5 [strB "n"] (some (strB "A"))
    [1] [24] [strB "p"] [strB "A", strB "B", strB "default"] 1 10
    ?_ ?_ (by decide) (by decide) ?_
  · intro s ps h
    by_cases h1 : s = ixA
    · subst h1
      rw [show fsC5.file ixA = some (strB "Inherits=B\n") from by decide] at h
      rw [show find_parent_themes (some (strB "Inherits=B\n")) =
          some [strB "B"] from by decide] at h
      cases h
      exact ⟨by decide, by decide⟩
    · by_cases h2 : s = ixB
      · subst h2
        rw [show fsC5.file ixB = some (strB "Inherits=A\n") from by decide] at h
        rw [show find_parent_themes (some (strB "Inherits=A\n")) =
            some [strB "A"] from by decide] at h
        cases h
        exact ⟨by decide, by decide⟩
      · have hnone : fsC5.file s = none := by
          simp [fsC5, h1, h2]
        rw [hnone] at h
        exact absurd h (by simp [find_parent_themes])
  · intro t h
    cases h
    decide
  · intro p t n
    have hc : (99 : Nat) ∈ cursorFilePath p t n := by
      unfold cursorFilePath
      exact List.mem_append_left _ (List.mem_append_right _ (by decide))
    have hA : cursorFilePath p t n ≠ ixA := by
      intro h
      rw [h] at hc
      exact absurd hc (by decide)
    have hB : cursorFilePath p t n ≠ ixB := by
      intro h
      rw [h] at hc
      exact absurd hc (by decide)
    simp [fsC5, hA, hB]

/-- A filesystem where candidate `n1` exists only in the parent theme P while
candidate `n2` exists directly in the supplied theme T (which inherits P). -/
def fsC7 : Fs :=
  ⟨fun s =>
    if s = indexFilePath (strB "p") (strB "T") then some (strB "Inherits=P\n")
    else if s = cursorFilePath (strB "p") (strB "P") (strB "n1") then some [1]
    else if s = cursorFilePath (strB "p") (strB "T") (strB "n2") then some [2]
    else none⟩

/-- C7 counterexample: although the later candidate `n2` is present directly
in theme T (content `[2]`), the locator returns the earlier candidate `n1`
found in the parent theme P (content `[1]`): the parent recursion for one
candidate name runs before the next candidate name is tried directly, so a
later candidate present directly is *not* preferred. -/
theorem direct_name_not_preferred :
    (nameLoop fsC7 [strB "p"] 10 [] (strB "T") [strB "n1", strB "n2"]).map
        Prod.fst = some (some [1]) ∧
    fsC7.file (cursorFilePath (strB "p") (strB "T") (strB "n2")) = some [2] ∧
    fsC7.file (cursorFilePath (strB "p") (strB "T") (strB "n1")) = none ∧
    fsC7.file (cursorFilePath (strB "p") (strB "P") (strB "n1")) = some [1] := by
  decide

/-- C7 (amended): for each candidate name in order, the supplied theme *and
its entire `Inherits` closure* are searched (`open_cursor_file` recursion)
before the next candidate name is tried; a found file short-circuits the
name loop, and a fruitless closure search passes the enlarged visited set to
the next candidate name.  Hence an earlier candidate found anywhere in the
closure is preferred over a later candidate present directly. -/
theorem name_loop_per_name_closure (fs : Fs) (paths : List BStr) (fuel : Nat)
    (v : Visited) (th n : BStr) (ns : List BStr) :
    (∀ f v1, open_cursor_file fs paths fuel v th n = some (some f, v1) →
      nameLoop fs paths fuel v th (n :: ns) = some (some f, v1)) ∧
    (∀ v1, open_cursor_file fs paths fuel v th n = some (none, v1) →
      nameLoop fs paths fuel v th (n :: ns) = nameLoop fs paths fuel v1 th ns) := by
  constructor
  · intro f v1 h
    simp [nameLoop, h]
  · intro v1 h
    simp [nameLoop, h]

/-- C7 amended-claim witness: the name-loop clauses at the concrete
filesystem `fsC7`. -/
theorem name_loop_per_name_closure_witness :
    nameLoop fsC7 [strB "p"] 10 [] (strB "T") [strB "n1", strB "n2"] =
      some (some [1], [(strB "P", strB "n1"), (strB "T", strB "n1")]) :=
  (name_loop_per_name_closure fsC7 [strB "p"] 10 [] (strB "T") (strB "n1")
      [strB "n2"]).1
    [1] [(strB "P", strB "n1"), (strB "T", strB "n1")] (by decide)

/-! ## Search-path resolution (`find_cursor_paths`) -/

def XCURSOR_PATH_DEFAULT : BStr :=
  strB "~/.icons:/usr/share/icons:/usr/share/pixmaps:/usr/X11R6/lib/X11/icons"

/-- Slice split on one delimiter byte (keeps empty pieces). -/
def splitByteAux (d : Nat) : List Nat → List Nat → List BStr
  | [], acc => [acc.reverse]
  | b :: rest, acc =>
    if b = d then acc.reverse :: splitByteAux d rest []
    else splitByteAux d rest (b :: acc)

def splitByte (d : Nat) (l : List Nat) : List BStr := splitByteAux d l []

/-- The entry loop of `find_cursor_paths` (lines 585-600): a leading `~`
(byte 126) is replaced by the home directory; with no home the entry is
dropped (with a warning); other entries are kept unchanged. -/
def expandLoop (home : Option BStr) : List BStr → List BStr
  | [] => []
  | p :: rest =>
    if p.head? = some 126 then
      match home with
      | some h => (h ++ p.drop 1) :: expandLoop home rest
      | none => expandLoop home rest
    else p :: expandLoop home rest

/-- The function `find_cursor_paths`, over the environment values of
`XCURSOR_PATH` and
`HOME`. -/
def find_cursor_paths (xcursorPath home : Option BStr) : List BStr :=
  expandLoop home (splitByte 58 (xcursorPath.getD XCURSOR_PATH_DEFAULT))

theorem expandLoop_eq_filterMap (home : Option BStr) (l : List BStr) :
    expandLoop home l = l.filterMap (fun p =>
      if p.head? = some 126 then home.map (fun h => h ++ p.drop 1)
      else some p) := by
  induction l with
  | nil => rfl
  | cons p rest ih =>
    unfold expandLoop
    by_cases hp : p.head? = some 126
    · rw [if_pos hp]
      cases home with
      | some h => simp [List.filterMap_cons, hp, ih]
      | none => simp [List.filterMap_cons, hp, ih]
    · rw [if_neg hp]
      simp [List.filterMap_cons, hp, ih]

/-- C8: for every colon-separated search-path value and HOME state, each
entry beginning with `~` has that single byte replaced by HOME when HOME is
set; with HOME unset that entry is dropped while every other entry is kept;
retained entries keep their original order (the result is a `filterMap` of
the split, which preserves order).  Concretely, `~/.icons` expands to
`/home/u/.icons` under home `/home/u` and is skipped with no home while
resolution continues with the remaining entries. -/
theorem find_cursor_paths_spec :
    (∀ (raw : BStr) (home : Option BStr),
      find_cursor_paths (some raw) home =
        (splitByte 58 raw).filterMap (fun p =>
          if p.head? = some 126 then home.map (fun h => h ++ p.drop 1)
          else some p)) ∧
    find_cursor_paths (some (strB "~/.icons")) (some (strB "/home/u")) =
      [strB "/home/u/.icons"] ∧
    find_cursor_paths (some (strB "~/.icons:/x")) none = [strB "/x"] := by
  refine ⟨fun raw home => ?_, by decide, by decide⟩
  unfold find_cursor_paths
  simp only [Option.getD_some]
  exact expandLoop_eq_filterMap home _

/-! ## Templates, instances and animation (`ServerCursorTemplate`,
`StaticCursor`, `AnimatedCursor`).  `Rect`, `Fixed`, `Scale` and the texture
context are outside the excerpted sources and are modelled from the spec. -/

/-- Modelled from the spec: the hotspot-relative extents rectangle (origin at
`(-xhot, -yhot)`, size `width × height`); `Rect` itself is not part of the
excerpted sources.  `new_sized` rejects negative sizes (whence the
`.unwrap()` in `CursorImageScaled::from_bytes`); `new_empty` is the empty
rectangle at a point. -/
structure Rect where
  x1 : Int
  y1 : Int
  x2 : Int
  y2 : Int
deriving DecidableEq, Repr

def Rect.new_empty (x y : Int) : Rect := ⟨x, y, x, y⟩

def Rect.new_sized (x y w h : Int) : Option Rect :=
  if 0 ≤ w ∧ 0 ≤ h then some ⟨x, y, x + w, y + h⟩ else none

def Rect.move_ (r : Rect) (dx dy : Int) : Rect :=
  ⟨r.x1 + dx, r.y1 + dy, r.x2 + dx, r.y2 + dy⟩

def Rect.intersects (r o : Rect) : Bool :=
  decide (r.x1 < o.x2 ∧ o.x1 < r.x2 ∧ r.y1 < o.y2 ∧ o.y1 < r.y2)

/-- Modelled from the spec: the texture uploader
(`GfxContext::shmem_texture` + `into_texture`), taking pixel bytes and the
dimensions; `none` is a texture-import error (`ImportError` / `GfxError`),
`some` an opaque drawable handle. -/
structure Ctx where
  shmem : List Nat → Int → Int → Option Nat

structure CursorImageScaled where
  extents : Rect
  tex : Nat
deriving DecidableEq, Repr

/-- The function `CursorImageScaled::from_bytes`: the extents rectangle
(whose
`.unwrap()` panics for negative sizes) and the texture upload. -/
def CursorImageScaled.from_bytes (ctx : Ctx) (data : List Nat)
    (width height xhot yhot : Int) : DOut CursorImageScaled :=
  match Rect.new_sized (-xhot) (-yhot) width height with
  | none => .panic
  | some r =>
    match ctx.shmem data width height with
    | none => .err .ImportError
    | some t => .ok ⟨r, t⟩

structure CursorImage where
  delay_ns : Nat
  sizes : List ((Nat × Nat) × CursorImageScaled)
deriving DecidableEq, Repr

/-- The function `CursorImage::from_sizes`:
`delay_ns = max(delay_ms, 1) * 1_000_000`. -/
def CursorImage.from_sizes (delay_ms : Nat)
    (sizes : List ((Nat × Nat) × CursorImageScaled)) : CursorImage :=
  ⟨max delay_ms 1 * 1000000, sizes⟩

structure InstantiatedCursorImage where
  delay_ns : Nat
  scales : List (Nat × CursorImageScaled)
deriving DecidableEq, Repr

/-- The function `CursorImage::for_size`: keep only the entries of the
requested size,
keyed by scale. -/
def CursorImage.for_size (c : CursorImage) (size : Nat) :
    InstantiatedCursorImage :=
  ⟨c.delay_ns,
   c.sizes.foldl (fun acc kv =>
     if kv.1.2 = size then ainsert kv.1.1 kv.2 acc else acc) []⟩

inductive ServerCursorTemplateVariant where
  | Static : CursorImage → ServerCursorTemplateVariant
  | Animated : List CursorImage → ServerCursorTemplateVariant
deriving DecidableEq

structure ServerCursorTemplate where
  var : ServerCursorTemplateVariant
  xcursor : List Frame
deriving DecidableEq

/-- The per-frame entry loop of `ServerCursorTemplate::load`: upload every
image of the frame (errors propagate via `?`), remembering the delay of the
last-iterated entry. -/
def buildEntries (ctx : Ctx) :
    Frame → Nat → List ((Nat × Nat) × CursorImageScaled) →
    DOut (Nat × List ((Nat × Nat) × CursorImageScaled))
  | [], delay, acc => .ok (delay, acc)
  | (k, c) :: rest, _, acc =>
    match CursorImageScaled.from_bytes ctx c.pixels c.width c.height
        c.xhot c.yhot with
    | .ok img => buildEntries ctx rest c.delay (ainsert k img acc)
    | .err e => .err e
    | .panic => .panic

def buildAnimatedImages (ctx : Ctx) : List Frame → DOut (List CursorImage)
  | [] => .ok []
  | f :: fs =>
    match buildEntries ctx f 0 [] with
    | .ok ds =>
      match buildAnimatedImages ctx fs with
      | .ok imgs => .ok (CursorImage.from_sizes ds.1 ds.2 :: imgs)
      | .err e => .err e
      | .panic => .panic
    | .err e => .err e
    | .panic => .panic

/-- The inner loop of the fallback path: one synthetic 1x1 transparent image
per size for a fixed scale. -/
def fallbackInner (ctx : Ctx) (scale : Nat) :
    List Nat → List ((Nat × Nat) × CursorImageScaled) →
    DOut (List ((Nat × Nat) × CursorImageScaled))
  | [], acc => .ok acc
  | size :: rest, acc =>
    match CursorImageScaled.from_bytes ctx [0, 0, 0, 0] 1 1 0 0 with
    | .ok img => fallbackInner ctx scale rest (ainsert (scale, size) img acc)
    | .err e => .err e
    | .panic => .panic

def fallbackOuter (ctx : Ctx) (sizes : List Nat) :
    List Nat → List ((Nat × Nat) × CursorImageScaled) →
    DOut (List ((Nat × Nat) × CursorImageScaled))
  | [], acc => .ok acc
  | scale :: rest, acc =>
    match fallbackInner ctx scale sizes acc with
    | .ok acc1 => fallbackOuter ctx sizes rest acc1
    | .err e => .err e
    | .panic => .panic

/-- The fallback of `ServerCursorTemplate::load` (lines 273-290): a Static
template with one 1x1 transparent image per (scale, size) pair; an upload
failure here propagates. -/
def fallbackTemplate (ctx : Ctx) (scales sizes : List Nat) :
    DOut ServerCursorTemplate :=
  match fallbackOuter ctx sizes scales [] with
  | .ok imgSizes => .ok ⟨.Static (CursorImage.from_sizes 0 imgSizes), []⟩
  | .err e => .err e
  | .panic => .panic

/-- The function `ServerCursorTemplate::load`: on `open_cursor` success,
upload the real
images (a one-frame result becomes Static, otherwise Animated) with upload
failures propagating via `?`; on `open_cursor` failure, log and build the
synthetic fallback.  The outer `Option` is the locator fuel artefact. -/
def ServerCursorTemplate.load (ctx : Ctx) (fs : Fs) (names : List BStr)
    (theme : Option BStr) (scales sizes : List Nat) (paths : List BStr)
    (fuel : Nat) : Option (DOut ServerCursorTemplate) :=
  match open_cursor fs names theme scales sizes paths fuel with
  | none => none
  | some .panic => some .panic
  | some (.err _) => some (fallbackTemplate ctx scales sizes)
  | some (.ok cs) =>
    some (match cs.images with
      | [f] =>
        match buildEntries ctx f 0 [] with
        | .ok ds => .ok ⟨.Static (CursorImage.from_sizes 0 ds.2), cs.images⟩
        | .err e => .err e
        | .panic => .panic
      | imgs =>
        match buildAnimatedImages ctx imgs with
        | .ok cimgs => .ok ⟨.Animated cimgs, cs.images⟩
        | .err e => .err e
        | .panic => .panic)

structure AnimatedState where
  start : Nat
  next : Nat
  idx : Nat
  images : List InstantiatedCursorImage
deriving DecidableEq, Repr

inductive CursorInstance where
  | staticCur : InstantiatedCursorImage → CursorInstance
  | animated : AnimatedState → CursorInstance
deriving DecidableEq

/-- The function `ServerCursorTemplate::instantiate`: project each image
down to the
requested size; an animated instance starts at frame 0 with the first
frame's delay as its deadline and the current time as its epoch (`a[0]`
panics on an empty list, unreachable for loaded templates). -/
def ServerCursorTemplate.instantiate (t : ServerCursorTemplate) (now : Nat)
    (size : Nat) : DOut CursorInstance :=
  match t.var with
  | .Static s => .ok (.staticCur (s.for_size size))
  | .Animated a =>
    match a with
    | [] => .panic
    | a0 :: rest =>
      .ok (.animated
        { start := now, next := a0.delay_ns, idx := 0
          images := (a0 :: rest).map (fun c => c.for_size size) })

structure RendererState where
  scale : Nat
  pixel_extents : Rect
deriving DecidableEq, Repr

structure DrawCmd where
  tex : Nat
  x : Int
  y : Int
  scale : Nat
deriving DecidableEq, Repr

/-- Fixed-point coordinates: `Fixed` is a raw 24.8 fixed-point integer;
`round_down` is its integer
part and the scaled branch's `f64` rounding of `x * scale` is modelled as
exact rational rounding. -/
def fixedRoundDown (v : Int) : Int := v / 256

def roundScale (v : Int) (s : Nat) : Int := (v * s + 128) / 256

/-- The function `render_img`: skip when the renderer's scale has no image
or when the
moved extents do not intersect the visible pixels; otherwise emit the draw
call. -/
def render_img (img : InstantiatedCursorImage) (rs : RendererState)
    (x y : Int) : Option DrawCmd :=
  match alookup rs.scale img.scales with
  | none => none
  | some i =>
    let extents :=
      if rs.scale ≠ 1 then
        i.extents.move_ (roundScale x rs.scale) (roundScale y rs.scale)
      else i.extents.move_ (fixedRoundDown x) (fixedRoundDown y)
    if extents.intersects rs.pixel_extents then
      some ⟨i.tex, extents.x1, extents.y1, rs.scale⟩
    else none

/-- The method `render_hardware_cursor`: draw at the origin when the scale
has an
image. -/
def hwRender (img : InstantiatedCursorImage) (rs : RendererState) :
    Option DrawCmd :=
  match alookup rs.scale img.scales with
  | none => none
  | some i => some ⟨i.tex, 0, 0, rs.scale⟩

/-- The method `extents_at_scale` on one image: the empty rectangle at the
origin when
the scale has no image. -/
def extentsFor (img : InstantiatedCursorImage) (scale : Nat) : Rect :=
  match alookup scale img.scales with
  | none => Rect.new_empty 0 0
  | some i => i.extents

/-- The image the instance currently displays. -/
def CursorInstance.currentImage :
    CursorInstance → Option InstantiatedCursorImage
  | .staticCur img => some img
  | .animated s => s.images.get? s.idx

def CursorInstance.render (c : CursorInstance) (rs : RendererState)
    (x y : Int) : DOut (Option DrawCmd) :=
  match c with
  | .staticCur img => .ok (render_img img rs x y)
  | .animated s =>
    match s.images.get? s.idx with
    | none => .panic
    | some img => .ok (render_img img rs x y)

def CursorInstance.render_hardware_cursor (c : CursorInstance)
    (rs : RendererState) : DOut (Option DrawCmd) :=
  match c with
  | .staticCur img => .ok (hwRender img rs)
  | .animated s =>
    match s.images.get? s.idx with
    | none => .panic
    | some img => .ok (hwRender img rs)

def CursorInstance.extents_at_scale (c : CursorInstance) (scale : Nat) :
    DOut Rect :=
  match c with
  | .staticCur img => .ok (extentsFor img scale)
  | .animated s =>
    match s.images.get? s.idx with
    | none => .panic
    | some img => .ok (extentsFor img scale)

/-- The method `AnimatedCursor::tick` (times in nanoseconds since an
arbitrary clock
origin): a no-op before the deadline; otherwise advance the index modulo the
frame count and add the new frame's delay to the deadline.  (The source
indexes `self.images[idx]`, which panics for an empty image list; that case
is unreachable for instantiated cursors and modelled as a no-op.) -/
def AnimatedState.tick (s : AnimatedState) (now : Nat) : AnimatedState :=
  let dist := now - s.start
  if dist < s.next then s
  else
    let idx := (s.idx + 1) % s.images.length
    match s.images.get? idx with
    | some img => { s with idx := idx, next := s.next + img.delay_ns }
    | none => s

/-- The method `AnimatedCursor::time_until_tick`, a saturating
subtraction of the elapsed time from the deadline. -/
def AnimatedState.time_until_tick (s : AnimatedState) (now : Nat) : Nat :=
  s.next - (now - s.start)

/-- C6: for an animated instance (a nonempty frame list),
`time_until_tick` is never negative (it is a saturating difference) and is
zero exactly when a `tick` at the same instant takes the advancing branch;
`tick` before the deadline is a no-op; an overdue `tick` increments the
index modulo the frame count and adds the new frame's delay to the existing
deadline (accumulating, not resetting). -/
theorem animated_tick_time_spec (s : AnimatedState) (now : Nat)
    (h : s.images ≠ []) :
    0 ≤ s.time_until_tick now ∧
    (s.time_until_tick now = 0 ↔ ¬ (now - s.start < s.next)) ∧
    (now - s.start < s.next → s.tick now = s) ∧
    (¬ (now - s.start < s.next) →
      (s.tick now).idx = (s.idx + 1) % s.images.length ∧
      ∃ img, s.images.get? ((s.idx + 1) % s.images.length) = some img ∧
        (s.tick now).next = s.next + img.delay_ns) := by
  have hlen : 0 < s.images.length := List.length_pos.mpr h
  have hmod : (s.idx + 1) % s.images.length < s.images.length :=
    Nat.mod_lt _ hlen
  obtain ⟨img, himg⟩ : ∃ img,
      s.images.get? ((s.idx + 1) % s.images.length) = some img := by
    rw [List.get?_eq_get hmod]
    exact ⟨_, rfl⟩
  refine ⟨Nat.zero_le _, ?_, ?_, ?_⟩
  · unfold AnimatedState.time_until_tick
    omega
  · intro hlt
    unfold AnimatedState.tick
    simp [hlt]
  · intro hge
    unfold AnimatedState.tick
    simp only [if_neg hge, himg]
    exact ⟨trivial, img, rfl, rfl⟩

/-- C6 witness: the tick/time_until_tick specification at a concrete
two-frame instance whose deadline has just been reached. -/
theorem animated_tick_time_spec_witness :
    (0 ≤ AnimatedState.time_until_tick
        ⟨0, 7, 0, [⟨3, []⟩, ⟨5, []⟩]⟩ 7 ∧
     (AnimatedState.time_until_tick ⟨0, 7, 0, [⟨3, []⟩, ⟨5, []⟩]⟩ 7 = 0 ↔
        ¬ (7 - (0:Nat) < 7)) ∧
     ((7 : Nat) - 0 < 7 →
        AnimatedState.tick ⟨0, 7, 0, [⟨3, []⟩, ⟨5, []⟩]⟩ 7 =
          ⟨0, 7, 0, [⟨3, []⟩, ⟨5, []⟩]⟩) ∧
     (¬ ((7 : Nat) - 0 < 7) →
        (AnimatedState.tick ⟨0, 7, 0, [⟨3, []⟩, ⟨5, []⟩]⟩ 7).idx =
          (0 + 1) % 2 ∧
        ∃ img, [(⟨3, []⟩ : InstantiatedCursorImage), ⟨5, []⟩].get?
            ((0 + 1) % 2) = some img ∧
          (AnimatedState.tick ⟨0, 7, 0, [⟨3, []⟩, ⟨5, []⟩]⟩ 7).next =
            7 + img.delay_ns)) :=
  animated_tick_time_spec ⟨0, 7, 0, [⟨3, []⟩, ⟨5, []⟩]⟩ 7 (by decide)

/-- A one-size cursor frame with the given declared delay (ms). -/
def c9img (d : Nat) : CursorImage :=
  CursorImage.from_sizes d [((1, 24), ⟨⟨0, 0, 1, 1⟩, 0⟩)]

/-- An animated three-frame template with per-frame delays 10ms/20ms/30ms. -/
def c9template : ServerCursorTemplate :=
  ⟨.Animated [c9img 10, c9img 20, c9img 30], []⟩

/-- The instance state produced by instantiating `c9template` at epoch 1000
for size 24. -/
def c9state : AnimatedState :=
  ⟨1000, 10000000, 0,
   [(c9img 10).for_size 24, (c9img 20).for_size 24, (c9img 30).for_size 24]⟩

set_option maxRecDepth 8000 in
/-- C9: instantiating the 10ms/20ms/30ms three-frame cursor yields frame
index 0 with deadline equal to the first frame's delay (10ms in ns); ticking
once every millisecond (so every tick that becomes due fires; non-due ticks
are no-ops) leaves the index at 2 after 59ms and cycles it back to 0 at an
elapsed time of exactly 60ms. -/
theorem animation_round_trip :
    c9template.instantiate 1000 24 = .ok (.animated c9state) ∧
    c9state.idx = 0 ∧ c9state.next = 10000000 ∧ c9state.start = 1000 ∧
    ((List.range' 1 59).foldl
      (fun s ms => s.tick (1000 + ms * 1000000)) c9state).idx = 2 ∧
    ((List.range' 1 60).foldl
      (fun s ms => s.tick (1000 + ms * 1000000)) c9state).idx = 0 := by
  decide

theorem fallback_from_bytes_ok {ctx : Ctx} {t : Nat}
    (h : ctx.shmem [0, 0, 0, 0] 1 1 = some t) :
    CursorImageScaled.from_bytes ctx [0, 0, 0, 0] 1 1 0 0 =
      .ok ⟨⟨0, 0, 1, 1⟩, t⟩ := by
  unfold CursorImageScaled.from_bytes
  rw [show Rect.new_sized (-(0:Int)) (-(0:Int)) 1 1 = some ⟨0, 0, 1, 1⟩ from by
    decide]
  rw [h]

theorem fallback_from_bytes_err {ctx : Ctx}
    (h : ctx.shmem [0, 0, 0, 0] 1 1 = none) :
    CursorImageScaled.from_bytes ctx [0, 0, 0, 0] 1 1 0 0 =
      .err .ImportError := by
  unfold CursorImageScaled.from_bytes
  rw [show Rect.new_sized (-(0:Int)) (-(0:Int)) 1 1 = some ⟨0, 0, 1, 1⟩ from by
    decide]
  rw [h]

theorem fallbackInner_ok {ctx : Ctx} {t : Nat}
    (h : ctx.shmem [0, 0, 0, 0] 1 1 = some t) (scale : Nat) :
    ∀ (szs : List Nat) (acc : List ((Nat × Nat) × CursorImageScaled)),
      ∃ acc1, fallbackInner ctx scale szs acc = .ok acc1 ∧
        ∀ k : Nat × Nat,
          ((∃ sz ∈ szs, k = (scale, sz)) →
            alookup k acc1 = some ⟨⟨0, 0, 1, 1⟩, t⟩) ∧
          ((∀ sz ∈ szs, k ≠ (scale, sz)) →
            alookup k acc1 = alookup k acc) := by
  intro szs
  induction szs with
  | nil =>
    intro acc
    exact ⟨acc, rfl, fun k => ⟨by simp, fun _ => rfl⟩⟩
  | cons sz rest ih =>
    intro acc
    obtain ⟨acc1, heq, hprop⟩ := ih (ainsert (scale, sz) ⟨⟨0, 0, 1, 1⟩, t⟩ acc)
    refine ⟨acc1, ?_, ?_⟩
    · simp [fallbackInner, fallback_from_bytes_ok h, heq]
    · intro k
      constructor
      · rintro ⟨sz1, hsz1, rfl⟩
        by_cases hk : ∃ s2 ∈ rest, ((scale, sz1) : Nat × Nat) = (scale, s2)
        · exact (hprop _).1 hk
        · have hz : sz1 = sz := by
            rcases List.mem_cons.mp hsz1 with rfl | hmem
            · rfl
            · exact absurd ⟨sz1, hmem, rfl⟩ hk
          subst hz
          rw [(hprop _).2 (fun s2 hs2 heq2 => hk ⟨s2, hs2, heq2⟩)]
          rw [alookup_ainsert]
          simp
      · intro hall
        rw [(hprop _).2 (fun s2 hs2 => hall s2 (List.mem_cons_of_mem _ hs2))]
        rw [alookup_ainsert, if_neg]
        intro hke
        exact hall sz (by simp) hke.symm

theorem fallbackOuter_ok {ctx : Ctx} {t : Nat}
    (h : ctx.shmem [0, 0, 0, 0] 1 1 = some t) (sizes : List Nat) :
    ∀ (scs : List Nat) (acc : List ((Nat × Nat) × CursorImageScaled)),
      ∃ acc1, fallbackOuter ctx sizes scs acc = .ok acc1 ∧
        ∀ k : Nat × Nat,
          ((∃ sc ∈ scs, ∃ sz ∈ sizes, k = (sc, sz)) →
            alookup k acc1 = some ⟨⟨0, 0, 1, 1⟩, t⟩) ∧
          ((∀ sc ∈ scs, ∀ sz ∈ sizes, k ≠ (sc, sz)) →
            alookup k acc1 = alookup k acc) := by
  intro scs
  induction scs with
  | nil =>
    intro acc
    exact ⟨acc, rfl, fun k => ⟨by simp, fun _ => rfl⟩⟩
  | cons sc rest ih =>
    intro acc
    obtain ⟨acc2, heq2, hprop2⟩ := fallbackInner_ok h sc sizes acc
    obtain ⟨acc1, heq1, hprop1⟩ := ih acc2
    refine ⟨acc1, by simp [fallbackOuter, heq2, heq1], ?_⟩
    intro k
    constructor
    · rintro ⟨sc1, hsc1, sz1, hsz1, rfl⟩
      by_cases hk : ∃ s2 ∈ rest, ∃ z2 ∈ sizes, ((sc1, sz1) : Nat × Nat) = (s2, z2)
      · exact (hprop1 _).1 hk
      · have hs : sc1 = sc := by
          rcases List.mem_cons.mp hsc1 with rfl | hmem
          · rfl
          · exact absurd ⟨sc1, hmem, sz1, hsz1, rfl⟩ hk
        subst hs
        rw [(hprop1 _).2 (fun s2 hs2 z2 hz2 heq3 => hk ⟨s2, hs2, z2, hz2, heq3⟩)]
        exact (hprop2 _).1 ⟨sz1, hsz1, rfl⟩
    · intro hall
      rw [(hprop1 _).2
        (fun s2 hs2 z2 hz2 => hall s2 (List.mem_cons_of_mem _ hs2) z2 hz2)]
      exact (hprop2 _).2 (fun z2 hz2 => hall sc (by simp) z2 hz2)

theorem fallbackTemplate_err {ctx : Ctx}
    (h : ctx.shmem [0, 0, 0, 0] 1 1 = none)
    {scales sizes : List Nat} (hsc : scales ≠ []) (hsz : sizes ≠ []) :
    fallbackTemplate ctx scales sizes = .err .ImportError := by
  cases scales with
  | nil => exact absurd rfl hsc
  | cons sc rest =>
    cases sizes with
    | nil => exact absurd rfl hsz
    | cons sz rest2 =>
      simp [fallbackTemplate, fallbackOuter, fallbackInner,
        fallback_from_bytes_err h]

/-- C1 (amended): a failure of the locate/decode chain (`open_cursor`
returning any `CursorError`) is caught in `ServerCursorTemplate::load` and
replaced with a Static template holding the 1x1 fully transparent synthetic
image (pixel bytes `[0,0,0,0]`, extents `0,0,1,1`) for **every** requested
(scale, size) pair — provided the fallback upload itself succeeds; when the
fallback upload fails, `load` returns `Err(ImportError)`.  (Upload failures
in the *successful*-locate branch are not caught; see the counterexample.) -/
theorem load_catches_locate_decode_failures (ctx : Ctx) (fs : Fs)
    (names : List BStr) (theme : Option BStr) (scales sizes : List Nat)
    (paths : List BStr) (fuel : Nat) (e : CursorError)
    (hloc : open_cursor fs names theme scales sizes paths fuel =
      some (.err e)) :
    (∀ t, ctx.shmem [0, 0, 0, 0] 1 1 = some t →
      ∃ imgSizes,
        ServerCursorTemplate.load ctx fs names theme scales sizes paths fuel =
          some (.ok ⟨.Static (CursorImage.from_sizes 0 imgSizes), []⟩) ∧
        ∀ sc ∈ scales, ∀ sz ∈ sizes,
          alookup (sc, sz) imgSizes = some ⟨⟨0, 0, 1, 1⟩, t⟩) ∧
    (ctx.shmem [0, 0, 0, 0] 1 1 = none → scales ≠ [] → sizes ≠ [] →
      ServerCursorTemplate.load ctx fs names theme scales sizes paths fuel =
        some (.err .ImportError)) := by
  constructor
  · intro t ht
    obtain ⟨acc1, hacc1, hprop⟩ := fallbackOuter_ok ht sizes scales []
    refine ⟨acc1, ?_,
      fun sc hsc sz hsz => (hprop (sc, sz)).1 ⟨sc, hsc, sz, hsz, rfl⟩⟩
    simp [ServerCursorTemplate.load, hloc, fallbackTemplate, hacc1]
  · intro ht hsc hsz
    simp [ServerCursorTemplate.load, hloc, fallbackTemplate_err ht hsc hsz]

/-- The texture context that fails exactly on the real decoded pixels
`[9,9,9,9]` of `goodBytes` but succeeds on the synthetic transparent
image. -/
def ctxBad : Ctx := ⟨fun data _ _ => if data = [9, 9, 9, 9] then none else some 0⟩

/-- A filesystem containing one valid cursor file (under the `default`
theme fallback). -/
def fsGood : Fs :=
  ⟨fun s =>
    if s = cursorFilePath (strB "p") (strB "default") (strB "n") then
      some goodBytes
    else none⟩

/-- C1 counterexample: the locate/decode chain succeeds on `fsGood`, the
upload of the real decoded image fails, and `load` returns
`Err(ImportError)` even though the fallback synthetic upload would succeed —
so a texture-upload failure during the real attempt is *not* caught, and
`load` can return `Err` without the fallback upload failing. -/
theorem load_real_upload_failure_propagates :
    ServerCursorTemplate.load ctxBad fsGood [strB "n"] none [1] [24]
        [strB "p"] 5 = some (.err .ImportError) ∧
    ctxBad.shmem [0, 0, 0, 0] 1 1 = some 0 := by
  decide

/-- C1 witness: the amended claim at a filesystem with no files (locate
fails with `NotFound`) and an always-succeeding uploader. -/
theorem load_catches_locate_decode_failures_witness :
    (∀ t, (Ctx.mk (fun _ _ _ => some 0)).shmem [0, 0, 0, 0] 1 1 = some t →
      ∃ imgSizes,
        ServerCursorTemplate.load (Ctx.mk (fun _ _ _ => some 0))
            (Fs.mk (fun _ => none)) [strB "n"] none [1] [24] [strB "p"] 3 =
          some (.ok ⟨.Static (CursorImage.from_sizes 0 imgSizes), []⟩) ∧
        ∀ sc ∈ [1], ∀ sz ∈ [24],
          alookup (sc, sz) imgSizes = some ⟨⟨0, 0, 1, 1⟩, t⟩) ∧
    ((Ctx.mk (fun _ _ _ => some 0)).shmem [0, 0, 0, 0] 1 1 = none →
      [1] ≠ ([] : List Nat) → [24] ≠ ([] : List Nat) →
      ServerCursorTemplate.load (Ctx.mk (fun _ _ _ => some 0))
          (Fs.mk (fun _ => none)) [strB "n"] none [1] [24] [strB "p"] 3 =
        some (.err .ImportError)) :=
  load_catches_locate_decode_failures (Ctx.mk (fun _ _ _ => some 0))
    (Fs.mk (fun _ => none)) [strB "n"] none [1] [24] [strB "p"] 3
    .NotFound (by decide)

theorem buildAnimatedImages_ok_length {ctx : Ctx} :
    ∀ {frames : List Frame} {imgs : List CursorImage},
      buildAnimatedImages ctx frames = .ok imgs →
        imgs.length = frames.length := by
  intro frames
  induction frames with
  | nil =>
    intro imgs h
    unfold buildAnimatedImages at h
    cases h
    rfl
  | cons f rest ih =>
    intro imgs h
    unfold buildAnimatedImages at h
    cases h0 : buildEntries ctx f 0 [] with
    | ok ds =>
      simp only [h0] at h
      cases h1 : buildAnimatedImages ctx rest with
      | ok imgs1 =>
        simp only [h1] at h
        cases h
        simp [ih h1]
      | err e => simp only [h1] at h; exact absurd h (by simp)
      | panic => simp only [h1] at h; exact absurd h (by simp)
    | err e => simp only [h0] at h; exact absurd h (by simp)
    | panic => simp only [h0] at h; exact absurd h (by simp)

theorem parser_ok_images_ne_nil {data scales sizes : List Nat}
    {res : OpenCursorResult}
    (hok : parser_cursor_file data scales sizes = .ok res) :
    res.images ≠ [] := by
  cases h0 : Rd.readU322 ⟨data, 0⟩ with
  | none =>
    simp only [parser_cursor_file, h0] at hok
    exact absurd hok (by simp)
  | some v =>
    obtain ⟨magic, header, r1⟩ := v
    by_cases hmag : magic ≠ XCURSOR_MAGIC ∨ header < HEADER_SIZE
    · simp only [parser_cursor_file, h0, if_pos hmag] at hok
      exact absurd hok (by simp)
    · cases h2 : r1.readU322 with
      | none =>
        simp only [parser_cursor_file, h0, if_neg hmag, h2] at hok
        exact absurd hok (by simp)
      | some v2 =>
        obtain ⟨ver, ntoc, r2⟩ := v2
        by_cases hn : 0x10000 < ntoc
        · simp only [parser_cursor_file, h0, if_neg hmag, h2, if_pos hn] at hok
          exact absurd hok (by simp)
        · cases h3 : scanToc (tocReader r2 header) (mkTargets scales sizes)
              ntoc with
          | none =>
            simp only [parser_cursor_file, h0, if_neg hmag, h2, if_neg hn,
              h3] at hok
            exact absurd hok (by simp)
          | some v3 =>
            obtain ⟨ts, rf⟩ := v3
            simp only [parser_cursor_file, h0, if_neg hmag, h2, if_neg hn,
              h3] at hok
            have hpos := parseAfterScan_ok_pos_ne hok
            have hne := goodT_right_of_pos_ne
              (scanToc_good (Or.inl mkTargets_fresh) h3) hpos
            cases hts : ts with
            | nil =>
              exact absurd (hts ▸ hpos) (by simp [allPositions, dedupFirst])
            | cons t0 rest =>
              subst hts
              obtain ⟨-, -, hone, -⟩ :=
                parseAfterScan_ok_spec
                  (show (t0 :: rest).head? = some t0 from rfl) hne hok
              intro heq
              rw [heq] at hone
              simp at hone

theorem open_cursor_ok_parse {fs : Fs} {names : List BStr}
    {theme : Option BStr} {scales sizes : List Nat} {paths : List BStr}
    {fuel : Nat} {cs : OpenCursorResult}
    (h : open_cursor fs names theme scales sizes paths fuel =
      some (.ok cs)) :
    ∃ f, parser_cursor_file f scales sizes = .ok cs := by
  unfold open_cursor at h
  cases theme with
  | none =>
    simp only [] at h
    cases hnl : nameLoop fs paths fuel [] (strB "default") names with
    | none => simp only [hnl] at h; exact absurd h (by simp)
    | some p =>
      obtain ⟨r, v⟩ := p
      cases r with
      | some f =>
        simp only [hnl] at h
        exact ⟨f, Option.some.inj h⟩
      | none =>
        simp only [hnl] at h
        exact absurd (Option.some.inj h) (by simp)
  | some th =>
    simp only [] at h
    cases hnl1 : nameLoop fs paths fuel [] th names with
    | none => simp only [hnl1] at h; exact absurd h (by simp)
    | some p =>
      obtain ⟨r, v⟩ := p
      cases r with
      | some f =>
        simp only [hnl1] at h
        exact ⟨f, Option.some.inj h⟩
      | none =>
        simp only [hnl1] at h
        cases hnl2 : nameLoop fs paths fuel v (strB "default") names with
        | none => simp only [hnl2] at h; exact absurd h (by simp)
        | some p2 =>
          obtain ⟨r2, v2⟩ := p2
          cases r2 with
          | some f =>
            simp only [hnl2] at h
            exact ⟨f, Option.some.inj h⟩
          | none =>
            simp only [hnl2] at h
            exact absurd (Option.some.inj h) (by simp)

theorem load_ok_cases {ctx : Ctx} {fs : Fs} {names : List BStr}
    {theme : Option BStr} {scales sizes : List Nat} {paths : List BStr}
    {fuel : Nat} {tmpl : ServerCursorTemplate}
    (h : ServerCursorTemplate.load ctx fs names theme scales sizes paths
        fuel = some (.ok tmpl)) :
    (∃ s, tmpl.var = .Static s) ∨
    (∃ a, tmpl.var = .Animated a ∧ a ≠ []) := by
  unfold ServerCursorTemplate.load at h
  cases hoc : open_cursor fs names theme scales sizes paths fuel with
  | none => simp only [hoc] at h; exact absurd h (by simp)
  | some d =>
    cases d with
    | panic =>
      simp only [hoc] at h
      exact absurd (Option.some.inj h) (by simp)
    | err e =>
      simp only [hoc] at h
      have h2 : fallbackTemplate ctx scales sizes = .ok tmpl :=
        Option.some.inj h
      unfold fallbackTemplate at h2
      cases hfo : fallbackOuter ctx sizes scales [] with
      | ok acc =>
        simp only [hfo] at h2
        cases h2
        exact Or.inl ⟨_, rfl⟩
      | err e2 => simp only [hfo] at h2; exact absurd h2 (by simp)
      | panic => simp only [hfo] at h2; exact absurd h2 (by simp)
    | ok cs =>
      simp only [hoc] at h
      have h2 := Option.some.inj h
      have hne : cs.images ≠ [] := by
        obtain ⟨f, hf⟩ := open_cursor_ok_parse hoc
        exact parser_ok_images_ne_nil hf
      cases hcs : cs.images with
      | nil => exact absurd hcs hne
      | cons f0 restf =>
        rw [hcs] at h2
        cases restf with
        | nil =>
          cases hbe : buildEntries ctx f0 0 [] with
          | ok ds =>
            simp only [hbe] at h2
            cases h2
            exact Or.inl ⟨_, rfl⟩
          | err e2 => simp only [hbe] at h2; exact absurd h2 (by simp)
          | panic => simp only [hbe] at h2; exact absurd h2 (by simp)
        | cons f1 restf2 =>
          cases hba : buildAnimatedImages ctx (f0 :: f1 :: restf2) with
          | ok cimgs =>
            simp only [hba] at h2
            cases h2
            refine Or.inr ⟨cimgs, rfl, fun hnil => ?_⟩
            have hlen := buildAnimatedImages_ok_length hba
            rw [hnil] at hlen
            simp at hlen
          | err e2 => simp only [hba] at h2; exact absurd h2 (by simp)
          | panic => simp only [hba] at h2; exact absurd h2 (by simp)

theorem img_ops_missing_scale (img : InstantiatedCursorImage) :
    ∀ sc, alookup sc img.scales = none →
      (∀ rs : RendererState, rs.scale = sc → ∀ x y : Int,
        render_img img rs x y = none ∧ hwRender img rs = none) ∧
      extentsFor img sc = Rect.new_empty 0 0 := by
  intro sc hmiss
  refine ⟨?_, by simp [extentsFor, hmiss]⟩
  intro rs hrs x y
  rw [← hrs] at hmiss
  exact ⟨by simp [render_img, hmiss], by simp [hwRender, hmiss]⟩

/-- C10: every template produced by `load` instantiates successfully at
every size (including sizes with no loaded image), the operations of the
resulting instance are total (no panic: the instance always has a current
image, and each operation returns the corresponding pure value), and when
the renderer's scale has no matching image `render` and
`render_hardware_cursor` draw nothing while `extents_at_scale` is the empty
rectangle at the origin. -/
theorem template_instantiate_total (ctx : Ctx) (fs : Fs) (names : List BStr)
    (theme : Option BStr) (scales sizes : List Nat) (paths : List BStr)
    (fuel : Nat) (tmpl : ServerCursorTemplate)
    (h : ServerCursorTemplate.load ctx fs names theme scales sizes paths
        fuel = some (.ok tmpl)) :
    ∀ now size, ∃ inst, tmpl.instantiate now size = .ok inst ∧
      ∃ img, inst.currentImage = some img ∧
        (∀ (rs : RendererState) (x y : Int),
          inst.render rs x y = .ok (render_img img rs x y) ∧
          inst.render_hardware_cursor rs = .ok (hwRender img rs) ∧
          inst.extents_at_scale rs.scale = .ok (extentsFor img rs.scale)) ∧
        (∀ sc, alookup sc img.scales = none →
          (∀ rs : RendererState, rs.scale = sc → ∀ x y : Int,
            render_img img rs x y = none ∧ hwRender img rs = none) ∧
          extentsFor img sc = Rect.new_empty 0 0) := by
  intro now size
  rcases load_ok_cases h with ⟨s, hvar⟩ | ⟨a, hvar, hane⟩
  · refine ⟨.staticCur (s.for_size size), ?_, s.for_size size, rfl, ?_, ?_⟩
    · simp [ServerCursorTemplate.instantiate, hvar]
    · intro rs x y
      exact ⟨rfl, rfl, rfl⟩
    · exact img_ops_missing_scale _
  · cases a with
    | nil => exact absurd rfl hane
    | cons a0 rest =>
      refine ⟨.animated
        { start := now, next := a0.delay_ns, idx := 0
          images := (a0 :: rest).map (fun c => c.for_size size) }, ?_,
        a0.for_size size, ?_, ?_, ?_⟩
      · simp [ServerCursorTemplate.instantiate, hvar]
      · simp [CursorInstance.currentImage]
      · intro rs x y
        refine ⟨?_, ?_, ?_⟩ <;>
          simp [CursorInstance.render, CursorInstance.render_hardware_cursor,
            CursorInstance.extents_at_scale]
      · exact img_ops_missing_scale _

/-- The template loaded from `fsGood` with an always-succeeding uploader. -/
def tmplGood : ServerCursorTemplate :=
  { var := .Static
      { delay_ns := 1000000
        sizes := [((1, 24), { extents := ⟨0, 0, 1, 1⟩, tex := 0 })] }
    xcursor := [[((1, 24),
      { width := 1, height := 1, xhot := 0, yhot := 0, delay := 0
        pixels := [9, 9, 9, 9] })]] }

/-- C10 witness: instantiation totality for the concretely loaded template
`tmplGood`, at epoch 42 and size 99 — a size for which no image was
loaded. -/
theorem template_instantiate_total_witness :
    ∃ inst, tmplGood.instantiate 42 99 = .ok inst ∧
      ∃ img, inst.currentImage = some img ∧
        (∀ (rs : RendererState) (x y : Int),
          inst.render rs x y = .ok (render_img img rs x y) ∧
          inst.render_hardware_cursor rs = .ok (hwRender img rs) ∧
          inst.extents_at_scale rs.scale = .ok (extentsFor img rs.scale)) ∧
        (∀ sc, alookup sc img.scales = none →
          (∀ rs : RendererState, rs.scale = sc → ∀ x y : Int,
            render_img img rs x y = none ∧ hwRender img rs = none) ∧
          extentsFor img sc = Rect.new_empty 0 0) :=
  template_instantiate_total (Ctx.mk (fun _ _ _ => some 0)) fsGood
    [strB "n"] none [1] [24] [strB "p"] 5 tmplGood (by decide) 42 99
